import Mathlib

/-!
Verification development for the edconnect-algorithms repository.

The repository has two cores:

* a min-cost-flow parent/teacher conference scheduler
  (parent_teacher_conference_sorting.py and
  parent_teacher_conference_sorting_with_suggestions.py), and
* an ILP student-to-class partitioner with community-detection
  preprocessing (student_sorting_algorithm.py).

This file gives a shallow embedding of the data model and the operations of
both cores, translated from the Python source, and proves or refutes the
specification claims about them.  External services (the PuLP/CBC solver,
networkx network_simplex, the community-detection routine) are modelled by
their interface: an arbitrary variable valuation, an arbitrary feasible
integral flow, an arbitrary node-labelling function respectively.
-/

/-- The Python exceptions the embedded code can raise. -/
inductive PyErr where
  | keyError
  | nameError
  | indexError
deriving DecidableEq

/-- Python's string comparison: strict lexicographic order on the code
points.  This is the order Lean's String.lt denotes, written as a directly
computable Boolean function. -/
def chLt : List Char → List Char → Bool
  | _, [] => false
  | [], _ :: _ => true
  | a :: as, b :: bs => if a < b then true else if b < a then false else chLt as bs

namespace StudentSort

/-- A student record, mirroring the per-student dictionary of
students_data: the "prefs" entry plus the remaining key-value entries
("sex", categorical attributes) kept as an association list. -/
structure StudentData where
  prefs : List String
  extra : List (String × String)
deriving DecidableEq

/-- Ordered combinations of two elements of a list, as produced by Python
itertools.combinations(xs, 2): the pairs (xs i, xs j) with i < j. -/
def pairsOf {α : Type} : List α → List (α × α)
  | [] => []
  | x :: xs => xs.map (fun y => (x, y)) ++ pairsOf xs

/-- Lookup of a student record with the default used by
average_similarity: dataset.get(key, a record with an empty prefs list). -/
def lookupD (ds : List (String × StudentData)) (s : String) : StudentData :=
  match ds.lookup s with
  | some d => d
  | none => ⟨[], []⟩

/-- The keys of the students_data dictionary, in insertion order. -/
def keysOf (ds : List (String × StudentData)) : List String :=
  ds.map Prod.fst

/-- Source translation of average_similarity (student_sorting_algorithm.py
lines 358-371): walk every student record and every combination pair of its
preference list, counting all pairs and the pairs whose first component is
listed in the preference list of the second component.  Returns the counter
pair (total_pairs, total_similarity). -/
def simCounts (ds : List (String × StudentData)) : Nat × Nat :=
  ds.foldl
    (fun acc sd =>
      (pairsOf sd.2.prefs).foldl
        (fun acc2 pr =>
          (acc2.1 + 1, if pr.1 ∈ (lookupD ds pr.2).prefs then acc2.2 + 1 else acc2.2))
        acc)
    (0, 0)

/-- Source translation of average_similarity: the ratio of the two counters,
0 when no pair exists.  Python divides floats; the values are ratios of
small naturals, modelled exactly in ℚ. -/
def average_similarity (ds : List (String × StudentData)) : ℚ :=
  if (simCounts ds).1 = 0 then 0 else
    ((simCounts ds).2 : ℚ) / ((simCounts ds).1 : ℚ)

/-- The string returned by detect_preference_type for clustered data. -/
def clusteredLabel : String := "Friend Groups (Clusters)"

/-- The string returned by detect_preference_type for random data. -/
def randomLabel : String := "Random Preferences"

/-- Source translation of detect_preference_type (lines 374-380). -/
def detect_preference_type (ds : List (String × StudentData)) (threshold : ℚ) : String :=
  if average_similarity ds ≥ threshold then clusteredLabel else randomLabel

/-- The list of co-listed ordered preference pairs the source iterates over:
for every student record, the combination pairs of its preference list. -/
def coListedPairs (ds : List (String × StudentData)) : List (String × String) :=
  ds.flatMap (fun sd => pairsOf sd.2.prefs)

/-- Modelled from the spec: the fraction, over all unordered preference
pairs found anywhere in the dataset (the pairs of students co-listed in some
preference list, both orders identified), of pairs that are reciprocated,
i.e. both students list each other; 0 when there is no pair.  This is the
claim-side definition, used to compare the specification words with the
source computation average_similarity. -/
def specReciprocalFraction (ds : List (String × StudentData)) : ℚ :=
  let norm : String × String → String × String :=
    fun pr => if chLt pr.2.data pr.1.data then (pr.2, pr.1) else pr
  let ps := ((coListedPairs ds).map norm).dedup
  if ps.length = 0 then 0 else
    ((ps.countP (fun pr =>
        pr.2 ∈ (lookupD ds pr.1).prefs ∧ pr.1 ∈ (lookupD ds pr.2).prefs) : ℚ))
      / (ps.length : ℚ)

/-- Source translation of the graph edges built by preprocess (lines 9-22):
one directed add_edge call per (student, listed preference). -/
def prefEdges (ds : List (String × StudentData)) : List (String × String) :=
  ds.flatMap (fun sd => sd.2.prefs.map (fun p => (sd.1, p)))

/-- The nodes of the preference graph built by preprocess: exactly the
endpoints of the added edges (networkx add_edge creates both endpoints;
students that appear in no edge are never added). -/
def graphNodes (ds : List (String × StudentData)) : List String :=
  ((prefEdges ds).flatMap (fun e => [e.1, e.2])).dedup

/-- Source translation of the cluster map of preprocess: given the labelling
returned by the external community-detection routine (modelled as an
arbitrary function, total on the graph nodes), the cluster of label c is the
list of graph nodes labelled c; one cluster per distinct label. -/
def clustersOf (ds : List (String × StudentData)) (part : String → Nat) :
    List (Nat × List String) :=
  (((graphNodes ds).map part).dedup).map
    (fun c => (c, (graphNodes ds).filter (fun n => part n = c)))

/-- The decision variables of the two ILP builders: assign_s_to_c and the
pair variables (pair_…_in_… resp. common_assign_…_and_…_to_…). -/
inductive SVar where
  | assign (s c : String)
  | common (s1 s2 c : String)
deriving DecidableEq

/-- A linear affine expression as built by PuLP: coefficient-variable terms
plus a constant.  Rationals model the Python floats that appear in
right-hand sides (gender fractions, capacity divided by the class count). -/
structure Affine where
  terms : List (ℚ × SVar)
  const : ℚ
deriving DecidableEq

/-- A single variable as an affine expression. -/
def Affine.ofVar (v : SVar) : Affine := ⟨[(1, v)], 0⟩

/-- A constant as an affine expression. -/
def Affine.constE (q : ℚ) : Affine := ⟨[], q⟩

/-- The lpSum of unit-coefficient terms over a list of variables. -/
def lpSum1 (vs : List SVar) : Affine := ⟨vs.map (fun v => (1, v)), 0⟩

/-- The coefficient of a variable in an affine expression. -/
def Affine.coeff (a : Affine) (v : SVar) : ℚ :=
  (a.terms.filter (fun t => t.2 = v)).foldl (fun acc t => acc + t.1) 0

/-- A linear constraint as handed to PuLP. -/
inductive Constr where
  | le (a b : Affine)
  | ge (a b : Affine)
deriving DecidableEq

/-- A PuLP problem: the current objective and the constraint list.  PuLP
problem += constraint appends to the constraints; problem += expression
replaces the objective. -/
structure Model where
  objective : Affine
  constraints : List Constr
deriving DecidableEq

/-- Size of the Python set intersection set(a) & set(b). -/
def interCount (a b : List String) : Nat :=
  (a.dedup.filter (fun x => x ∈ b)).length

/-- The objective coefficient len(set(prefs s1) & set(prefs s2)). -/
def commonPrefCount (ds : List (String × StudentData)) (s1 s2 : String) : Nat :=
  interCount (lookupD ds s1).prefs (lookupD ds s2).prefs

/-- The gender ratio dictionary. -/
structure GenderFracs where
  m : ℚ
  f : ℚ
deriving DecidableEq

/-- Source translation of the comprehension
[s for s in students_data if students_data[s]["sex"] == g]: every record's
"sex" entry is read without a default, so a missing key raises KeyError. -/
def sexFiltered (ds : List (String × StudentData)) (g : String) :
    Except PyErr (List String) :=
  match ds with
  | [] => .ok []
  | sd :: rest =>
    match sd.2.extra.lookup "sex" with
    | none => .error .keyError
    | some x => do
      let r ← sexFiltered rest g
      .ok (if x = g then sd.1 :: r else r)

/-- Source translation of the factor_gender constraint block shared by both
ILP builders (lines 96-113 and 267-284): for every class, the number of
assigned m students is at most ratio m times its size, likewise for f. -/
def genderConstraints (ds : List (String × StudentData))
    (cs : List (String × Nat)) (gr : GenderFracs) :
    Except PyErr (List Constr) :=
  cs.foldlM
    (fun acc c => do
      let ms ← sexFiltered ds "m"
      let fs ← sexFiltered ds "f"
      .ok (acc ++
        [Constr.le (lpSum1 (ms.map (fun s => SVar.assign s c.1)))
          (Affine.constE (gr.m * (c.2 : ℚ))),
         Constr.le (lpSum1 (fs.map (fun s => SVar.assign s c.1)))
          (Affine.constE (gr.f * (c.2 : ℚ)))]) )
    []

/-- Whether a record carries the optional attribute with value "yes",
mirroring data.get(attr) == "yes" (total: get returns None when absent). -/
def hasAttr (d : StudentData) (a : String) : Bool :=
  d.extra.lookup a = some "yes"

/-- Source translation of one optional categorical constraint block (lines
116-135 and 287-306): concentrate bounds all marked assignments by the first
class's size (IndexError on an empty class dictionary), spread bounds each
class's marked assignments by its size divided by the class count. -/
def optionalConstraints (ds : List (String × StudentData))
    (cs : List (String × Nat)) (attr : Option String) (concentration : Bool) :
    Except PyErr (List Constr) :=
  match attr with
  | none => .ok []
  | some a =>
    if concentration then
      match cs.head? with
      | none => .error .indexError
      | some c0 =>
        .ok [Constr.le
          (lpSum1 ((ds.filter (fun sd => hasAttr sd.2 a)).flatMap
            (fun sd => cs.map (fun c => SVar.assign sd.1 c.1))))
          (Affine.constE (c0.2 : ℚ))]
    else
      .ok (cs.map (fun c =>
        Constr.le
          (lpSum1 ((ds.filter (fun sd => hasAttr sd.2 a)).map
            (fun sd => SVar.assign sd.1 c.1)))
          (Affine.constE ((c.2 : ℚ) / (cs.length : ℚ)))))

/-- The per-student assignment upper bound constraints (lines 68-71 and
236-239): each student is assigned to at most one class. -/
def assignmentConstraints (ds : List (String × StudentData))
    (cs : List (String × Nat)) : List Constr :=
  (keysOf ds).map (fun s =>
    Constr.le (lpSum1 (cs.map (fun c => SVar.assign s c.1))) (Affine.constE 1))

/-- The per-class capacity constraints (lines 73-76 and 241-244). -/
def capacityConstraints (ds : List (String × StudentData))
    (cs : List (String × Nat)) : List Constr :=
  cs.map (fun c =>
    Constr.le (lpSum1 ((keysOf ds).map (fun s => SVar.assign s c.1)))
      (Affine.constE (c.2 : ℚ)))

/-- The three AND-linearization constraints for a pair variable y and the
two assignment variables x1, x2: y ≤ x1, y ≤ x2, y ≥ x1 + x2 − 1. -/
def andConstraints (y x1 x2 : SVar) : List Constr :=
  [Constr.le (Affine.ofVar y) (Affine.ofVar x1),
   Constr.le (Affine.ofVar y) (Affine.ofVar x2),
   Constr.ge (Affine.ofVar y) ⟨[(1, x1), (1, x2)], -1⟩]

/-- The terms of the initial full-pair objective of the fallback builder
(lines 224-234): over all ordered pairs of distinct students and all
classes, the shared-preference count times the pair variable. -/
def fullObjectiveTerms (ds : List (String × StudentData))
    (cs : List (String × Nat)) : List (ℚ × SVar) :=
  (keysOf ds).flatMap (fun s1 =>
    (keysOf ds).flatMap (fun s2 =>
      if s1 = s2 then [] else
        cs.map (fun c =>
          ((commonPrefCount ds s1 s2 : ℚ), SVar.common s1 s2 c.1))))

/-- The iteration space of the fallback builder's constraint loop (lines
246-265): s1 over the students, s2 over the preference list of s1, c over
the classes. -/
def prefTriples (ds : List (String × StudentData))
    (cs : List (String × Nat)) : List (String × String × String) :=
  (keysOf ds).flatMap (fun s1 =>
    (lookupD ds s1).prefs.flatMap (fun s2 =>
      cs.map (fun c => (s1, s2, c.1))))

/-- Source translation of the fallback builder's constraint loop body: for
each triple it reads students_data[s2] (KeyError when s2 is not a student)
and the pair variable common_assigned[s1, s2, c] (KeyError when s1 = s2,
since the variable dictionary only holds distinct pairs), appends the three
AND constraints, and then adds the bare expression
common_assigned[s1, s2, c] * common_pref to the problem, which PuLP treats
as replacing the objective.  Returns the accumulated constraints and the
last objective replacement, if any. -/
def prefLoop (ds : List (String × StudentData)) (cs : List (String × Nat)) :
    Except PyErr (List Constr × Option Affine) :=
  (prefTriples ds cs).foldlM
    (fun acc t =>
      let (s1, s2, c) := t
      if s2 ∈ keysOf ds then
        if s1 = s2 then .error .keyError
        else
          let cp := commonPrefCount ds s1 s2
          .ok (acc.1 ++
              andConstraints (SVar.common s1 s2 c) (SVar.assign s1 c)
                (SVar.assign s2 c),
            some ⟨[((cp : ℚ), SVar.common s1 s2 c)], 0⟩)
      else .error .keyError)
    ([], none)

/-- Source translation of the model construction of
ilp_assign_classes_less_constraints_with_preprocessing (lines 204-327), the
full (non-preprocessed) formulation.  The initial problem objective is the
full-pair sum; every iteration of the constraint loop then overwrites it. -/
def buildLessModel (ds : List (String × StudentData))
    (cs : List (String × Nat)) (gr : GenderFracs) (fg : Bool)
    (opt : Option String) (pc : Bool)
    (opt2 : Option String) (pc2 : Bool) : Except PyErr Model := do
  let obj0 : Affine := ⟨fullObjectiveTerms ds cs, 0⟩
  let pref ← prefLoop ds cs
  let genderCs ← if fg then genderConstraints ds cs gr else .ok []
  let optCs ← optionalConstraints ds cs opt pc
  let optCs2 ← optionalConstraints ds cs opt2 pc2
  .ok { objective := pref.2.getD obj0
        constraints := assignmentConstraints ds cs ++ capacityConstraints ds cs
          ++ pref.1 ++ genderCs ++ optCs ++ optCs2 }

/-- The iteration space of the preprocessed builder's pair loops: for every
cluster, every ordered pair of distinct members, every class. -/
def clusterTriples (ds : List (String × StudentData))
    (cs : List (String × Nat)) (part : String → Nat) :
    List (String × String × String) :=
  (clustersOf ds part).flatMap (fun cl =>
    cl.2.flatMap (fun s1 =>
      cl.2.flatMap (fun s2 =>
        if s1 = s2 then [] else cs.map (fun c => (s1, s2, c.1)))))

/-- The objective of the preprocessed builder (lines 55-66): the cluster
pair loop reads students_data of both members directly, raising KeyError on
a graph node that is not a student. -/
def preObjectiveTerms (ds : List (String × StudentData))
    (cs : List (String × Nat)) (part : String → Nat) :
    Except PyErr (List (ℚ × SVar)) :=
  (clusterTriples ds cs part).foldlM
    (fun acc t =>
      let (s1, s2, c) := t
      if s1 ∈ keysOf ds ∧ s2 ∈ keysOf ds then
        .ok (acc ++ [((commonPrefCount ds s1 s2 : ℚ), SVar.common s1 s2 c)])
      else .error .keyError)
    []

/-- The AND-linearization constraints of the preprocessed builder (lines
78-94), again reading the assignment variables keyed by student, so a graph
node that is not a student raises KeyError. -/
def preAndConstraints (ds : List (String × StudentData))
    (cs : List (String × Nat)) (part : String → Nat) :
    Except PyErr (List Constr) :=
  (clusterTriples ds cs part).foldlM
    (fun acc t =>
      let (s1, s2, c) := t
      if s1 ∈ keysOf ds ∧ s2 ∈ keysOf ds then
        .ok (acc ++ andConstraints (SVar.common s1 s2 c) (SVar.assign s1 c)
          (SVar.assign s2 c))
      else .error .keyError)
    []

/-- Source translation of the model construction of
ilp_assign_classes_with_preprocessing (lines 38-154), the preprocessed
formulation; the external community detection is the parameter part. -/
def buildPreModel (ds : List (String × StudentData))
    (cs : List (String × Nat)) (gr : GenderFracs) (part : String → Nat)
    (fg : Bool) (opt : Option String) (pc : Bool)
    (opt2 : Option String) (pc2 : Bool) : Except PyErr Model := do
  let obj ← preObjectiveTerms ds cs part
  let andCs ← preAndConstraints ds cs part
  let genderCs ← if fg then genderConstraints ds cs gr else .ok []
  let optCs ← optionalConstraints ds cs opt pc
  let optCs2 ← optionalConstraints ds cs opt2 pc2
  .ok { objective := ⟨obj, 0⟩
        constraints := assignmentConstraints ds cs ++ capacityConstraints ds cs
          ++ andCs ++ genderCs ++ optCs ++ optCs2 }

/-- The decoded class assignment (lines 161-168): for each class, in
class_sizes order, the students whose assignment variable the solver valued
1, in students_data order.  The external solver's output is modelled by the
valuation val: val s c is true when assign_s_to_c was valued 1. -/
def decodeAssignments (ds : List (String × StudentData))
    (cs : List (String × Nat)) (val : String → String → Bool) :
    List (String × List String) :=
  cs.map (fun c => (c.1, (keysOf ds).filter (fun s => val s c.1)))

/-- The students the solver left unassigned (lines 170-176). -/
def unassignedStudents (ds : List (String × StudentData))
    (cs : List (String × Nat)) (val : String → String → Bool) : List String :=
  (keysOf ds).filter (fun s => ¬ cs.any (fun c => val s c.1))

/-- The greedy choice of the repair loop (lines 178-184): scanning the
classes in order, keep the class with the strictly largest shared-preference
count among classes with remaining capacity; the initial best is minus
infinity, so the first class with room always wins. -/
def bestStep (cs : List (String × Nat)) (prefs : List String)
    (best : Option (Nat × String)) (cm : String × List String) :
    Option (Nat × String) :=
  let pref := interCount prefs cm.2
  let sz := (cs.lookup cm.1).getD 0
  match best with
  | none => if cm.2.length < sz then some (pref, cm.1) else none
  | some b => if pref > b.1 ∧ cm.2.length < sz then some (pref, cm.1) else best

def bestClass (cs : List (String × Nat)) (asg : List (String × List String))
    (prefs : List String) : Option (Nat × String) :=
  asg.foldl (bestStep cs prefs) none

/-- Append a repaired student to the chosen class. -/
def appendTo (asg : List (String × List String)) (c s : String) :
    List (String × List String) :=
  asg.map (fun cm => if cm.1 = c then (cm.1, cm.2 ++ [s]) else cm)

/-- One iteration of the repair loop (lines 177-186): place the student in
the chosen class.  The source guards the placement with Python truthiness
(if max_class:), so a falsy class id (the empty string) is skipped. -/
def repairStudent (ds : List (String × StudentData))
    (cs : List (String × Nat)) (asg : List (String × List String))
    (s : String) : List (String × List String) :=
  match bestClass cs asg (lookupD ds s).prefs with
  | some b => if b.2 ≠ "" then appendTo asg b.2 s else asg
  | none => asg

/-- The decoded assignment after the full greedy repair step. -/
def repairAll (ds : List (String × StudentData)) (cs : List (String × Nat))
    (val : String → String → Bool) : List (String × List String) :=
  (unassignedStudents ds cs val).foldl (repairStudent ds cs)
    (decodeAssignments ds cs val)

/-- The members of a class in an assignment, empty when absent. -/
def membersOf (asg : List (String × List String)) (c : String) : List String :=
  ((asg.lookup c).getD [])

/-- Source translation of the clustered branch of
combined_ilp_solver_rand_detection (lines 397-433).  The two inner solver
invocations are modelled by their outcomes: the preprocessed solve produced
the pair (initialAsg, status), the fallback full solve produces fallbackAsg.
Statuses are the PuLP LpSolution codes: 1 optimal, 2 integer feasible, -1
infeasible, 0 no solution found, -2 unbounded.  Only 1 and 2 are handled;
any other status falls off the end of the Python function, returning None. -/
def clusteredDispatch (cs : List (String × Nat))
    (initialAsg : List (String × List String)) (status : Int)
    (fallbackAsg : List (String × List String)) :
    Option (List (String × List String)) :=
  if status = 1 then some initialAsg
  else if status = 2 then
    if initialAsg.all (fun cm => cm.2.length ≤ (cs.lookup cm.1).getD 0)
    then some initialAsg
    else some fallbackAsg
  else none

/-- Source translation of combined_ilp_solver_rand_detection's dispatch
(lines 394-445): clustered data goes through the preprocessed solve and the
status dispatch, random data directly to the full formulation. -/
def combined_ilp_solver_rand_detection (students : List (String × StudentData))
    (cs : List (String × Nat))
    (initialAsg : List (String × List String)) (status : Int)
    (fallbackAsg : List (String × List String)) :
    Option (List (String × List String)) :=
  if detect_preference_type students (3/4) = clusteredLabel then
    clusteredDispatch cs initialAsg status fallbackAsg
  else some fallbackAsg

end StudentSort

namespace ConfSched

/-- A parent's request record, mirroring the per-parent dictionary of
parent_preferences: the wanted teachers and the preferred slots. -/
structure ParentPrefs (T R : Type) where
  teachers : List T
  preferred_slots : List R
deriving DecidableEq

/-- The input of the gadget-form scheduler schedule_meetings_optimal. -/
structure SchedInput (P T R : Type) where
  time_slots : List R
  teachers : List T
  parent_preferences : List (P × ParentPrefs T R)
deriving DecidableEq

variable {P T R : Type}

/-- Source translation of feasibility_check
(parent_teacher_conference_sorting.py lines 4-13).  The request-counting
generator sums 1 for p in parent_preferences if t in
parent_preferences[p]["teachers"]; the name t is unbound, so the condition
raises NameError as soon as it is evaluated, which happens once per parent.
With no parents the sum is 0, no warning fires, and the function falls off
the end returning None (modelled as no boolean produced). -/
def feasibility_check (I : SchedInput P T R) : Except PyErr (Option Bool) :=
  if I.parent_preferences.isEmpty then .ok none else .error .nameError

/-- The possible outcomes of a call of the gadget-form
schedule_meetings_optimal, as far as its entry control flow goes. -/
inductive GadgetOutcome where
  | raised (e : PyErr)
  | returnedNone
  | proceeded
deriving DecidableEq

/-- Control-flow translation of the entry of the gadget-form
schedule_meetings_optimal (lines 37-38): the feasibility check runs first;
an exception propagates to the caller; a falsy check result (None included)
triggers the bare return, so the call returns None instead of the
documented (schedule, total_reward, unscheduled) triple; only a truthy
result would let execution proceed to build the flow network. -/
def schedule_meetings_optimal_entry (I : SchedInput P T R) : GadgetOutcome :=
  match feasibility_check I with
  | .error e => .raised e
  | .ok none => .returnedNone
  | .ok (some b) => if b then .proceeded else .returnedNone

end ConfSched

namespace ConfSuggest

/-- A schedule as returned by the scheduler of the suggestions variant: the
dictionary (parent, teacher) → slot as an association list. -/
abbrev Sched := List ((String × String) × String)

/-- Source translation of the teacher-busy set (with_suggestions lines
123-127): the slots of scheduled meetings of the same teacher, the meeting
under consideration excepted. -/
def teacherBooked (schedule : Sched) (parent teacher : String) : List String :=
  (schedule.filter
    (fun e => e.1.2 = teacher ∧ ¬(e.1.1 = parent ∧ e.1.2 = teacher))).map Prod.snd

/-- Source translation of the parent-busy set (lines 130-134). -/
def parentBooked (schedule : Sched) (parent teacher : String) : List String :=
  (schedule.filter
    (fun e => e.1.1 = parent ∧ ¬(e.1.1 = parent ∧ e.1.2 = teacher))).map Prod.snd

/-- Source translation of the available list (lines 137-141): the time
slots, in input order, booked neither for the teacher nor for the parent. -/
def availableSlots (schedule : Sched) (parent teacher : String)
    (time_slots : List String) : List String :=
  time_slots.filter (fun slot =>
    slot ∉ teacherBooked schedule parent teacher ∧
    slot ∉ parentBooked schedule parent teacher)

/-- The Python sort key of the suggestion list: the pair
(slot not in preferred, slot), compared lexicographically with False before
True and string order on the slot label itself. -/
def notPref (preferred : List String) (a : String) : Bool :=
  !(decide (a ∈ preferred))

/-- Comparison of two slots under the Python key (slot not in preferred,
slot): key a ≤ key b, with False before True on the first component and the
code-point order on the slot label itself. -/
def keyLE (preferred : List String) (a b : String) : Bool :=
  if notPref preferred a = notPref preferred b then !(chLt b.data a.data)
  else notPref preferred b

/-- Stable insertion into a list sorted by le: the new element goes before
the first element it compares le to, so equal keys keep their original
relative order, as Python's stable sort does. -/
def insertLE (le : String → String → Bool) (x : String) :
    List String → List String
  | [] => [x]
  | y :: ys => if le x y then x :: y :: ys else y :: insertLE le x ys

/-- Stable insertion sort; agrees with Python sorted for a total preorder
key since both are stable. -/
def sortLE (le : String → String → Bool) : List String → List String
  | [] => []
  | x :: xs => insertLE le x (sortLE le xs)

/-- Source translation of suggest_alternative_timeslots_for_meeting
(with_suggestions lines 106-149): the feasible slots sorted by the key
(slot not in preferred, slot). -/
def suggest_alternative_timeslots_for_meeting (parent teacher : String)
    (schedule : Sched) (time_slots : List String)
    (preferred : List String) : List String :=
  sortLE (keyLE preferred) (availableSlots schedule parent teacher time_slots)

/-- Modelled from the spec for the claim comparison: the same feasible
slots sorted by the key (slot not preferred, input-order index in
time_slots).  Since availableSlots preserves the input order, a stable sort
by that key is the preferred part followed by the non-preferred part, both
in input order. -/
def suggestSpecOrdered (parent teacher : String) (schedule : Sched)
    (time_slots : List String) (preferred : List String) : List String :=
  let av := availableSlots schedule parent teacher time_slots
  av.filter (fun r => decide (r ∈ preferred)) ++
    av.filter (fun r => !(decide (r ∈ preferred)))

end ConfSuggest

namespace FlowNet

/-- The nodes of the min-cost-flow networks built by the two scheduler
variants, mirroring the stringly node ids of the source: source, sink,
meeting nodes M_p_t, candidate nodes A_p_t_r and B_p_t_r, the parent gadget
nodes P_p_r_in and P_p_r_out, and the teacher gadget nodes T_t_r_in and
T_t_r_out. -/
inductive FNode (P T R : Type) where
  | src
  | snk
  | meet (p : P) (t : T)
  | candA (p : P) (t : T) (r : R)
  | candB (p : P) (t : T) (r : R)
  | pIn (p : P) (r : R)
  | pOut (p : P) (r : R)
  | tIn (t : T) (r : R)
  | tOut (t : T) (r : R)
deriving DecidableEq

/-- The node type as an explicit sum, used to derive finiteness and to
decompose sums over all nodes. -/
abbrev NodeShape (P T R : Type) : Type :=
  Unit ⊕ Unit ⊕ (P × T) ⊕ (P × T × R) ⊕ (P × T × R) ⊕ (P × R) ⊕ (P × R) ⊕
    (T × R) ⊕ (T × R)

/-- Forward direction of the shape equivalence. -/
def toShape : FNode P T R → NodeShape P T R
  | .src => Sum.inl ()
  | .snk => Sum.inr (Sum.inl ())
  | .meet p t => Sum.inr (Sum.inr (Sum.inl (p, t)))
  | .candA p t r => Sum.inr (Sum.inr (Sum.inr (Sum.inl (p, t, r))))
  | .candB p t r => Sum.inr (Sum.inr (Sum.inr (Sum.inr (Sum.inl (p, t, r)))))
  | .pIn p r => Sum.inr (Sum.inr (Sum.inr (Sum.inr (Sum.inr (Sum.inl (p, r))))))
  | .pOut p r =>
      Sum.inr (Sum.inr (Sum.inr (Sum.inr (Sum.inr (Sum.inr (Sum.inl (p, r)))))))
  | .tIn t r =>
      Sum.inr (Sum.inr (Sum.inr (Sum.inr (Sum.inr (Sum.inr (Sum.inr
        (Sum.inl (t, r))))))))
  | .tOut t r =>
      Sum.inr (Sum.inr (Sum.inr (Sum.inr (Sum.inr (Sum.inr (Sum.inr
        (Sum.inr (t, r))))))))

/-- Backward direction of the shape equivalence. -/
def ofShape : NodeShape P T R → FNode P T R
  | Sum.inl () => .src
  | Sum.inr (Sum.inl ()) => .snk
  | Sum.inr (Sum.inr (Sum.inl (p, t))) => .meet p t
  | Sum.inr (Sum.inr (Sum.inr (Sum.inl (p, t, r)))) => .candA p t r
  | Sum.inr (Sum.inr (Sum.inr (Sum.inr (Sum.inl (p, t, r))))) => .candB p t r
  | Sum.inr (Sum.inr (Sum.inr (Sum.inr (Sum.inr (Sum.inl (p, r)))))) => .pIn p r
  | Sum.inr (Sum.inr (Sum.inr (Sum.inr (Sum.inr (Sum.inr (Sum.inl (p, r))))))) =>
      .pOut p r
  | Sum.inr (Sum.inr (Sum.inr (Sum.inr (Sum.inr (Sum.inr (Sum.inr
      (Sum.inl (t, r)))))))) => .tIn t r
  | Sum.inr (Sum.inr (Sum.inr (Sum.inr (Sum.inr (Sum.inr (Sum.inr
      (Sum.inr (t, r)))))))) => .tOut t r

/-- The shape equivalence. -/
def fnodeEquiv (P T R : Type) : FNode P T R ≃ NodeShape P T R where
  toFun := toShape
  invFun := ofShape
  left_inv := by
    intro v
    cases v <;> rfl
  right_inv := by
    intro s
    rcases s with u | u | pt | ptr | ptr | pr | pr | tr | tr
    · rfl
    · rfl
    · rfl
    · obtain ⟨p, t, r⟩ := ptr
      rfl
    · obtain ⟨p, t, r⟩ := ptr
      rfl
    · rfl
    · rfl
    · rfl
    · rfl

instance instFintypeFNode (P T R : Type) [Fintype P] [Fintype T] [Fintype R] :
    Fintype (FNode P T R) :=
  Fintype.ofEquiv (NodeShape P T R) (fnodeEquiv P T R).symm

end FlowNet

namespace FlowNet

variable {P T R : Type} [DecidableEq P] [DecidableEq T] [DecidableEq R]

open ConfSched

/-- The meeting requests derived from parent_preferences (gadget variant
lines 43-47, suggestions variant lines 24-28): one (parent, teacher) pair
per listed teacher, in dictionary order. -/
def meetingRequests (I : SchedInput P T R) : List (P × T) :=
  I.parent_preferences.flatMap (fun pd => pd.2.teachers.map (fun t => (pd.1, t)))

/-- Whether slot r is in parent_preferences[p]["preferred_slots"]. -/
def preferredB (I : SchedInput P T R) (p : P) (r : R) : Bool :=
  match I.parent_preferences.lookup p with
  | some d => decide (r ∈ d.preferred_slots)
  | none => false

/-- Whether some request names parent p. -/
def parentReq (I : SchedInput P T R) (p : P) : Bool :=
  (meetingRequests I).any (fun q => q.1 = p)

/-- Whether some request names teacher t. -/
def teacherReq (I : SchedInput P T R) (t : T) : Bool :=
  (meetingRequests I).any (fun q => q.2 = t)

/-- The edge capacities of the network built by the gadget-form variant
(parent_teacher_conference_sorting.py lines 40-127): a zero capacity means
the edge is absent.  Per request (p,t): source → M (cap 1), per slot r the
candidate chain M → A → P_in → P_out → B → T_in → T_out with the parent and
teacher gadget internal edges of capacity 1, and a drop edge M → sink.
Step 5 then adds T_out → sink and the inter-slot shift edges for every
teacher of the teachers argument. -/
def capGadget (I : SchedInput P T R) : FNode P T R → FNode P T R → ℕ
  | .src, .meet p t => if (p, t) ∈ meetingRequests I then 1 else 0
  | .meet p t, .candA q u r =>
      if p = q ∧ t = u ∧ (p, t) ∈ meetingRequests I ∧ r ∈ I.time_slots
      then 1 else 0
  | .meet p t, .snk => if (p, t) ∈ meetingRequests I then 1 else 0
  | .candA p t r, .pIn q r2 =>
      if p = q ∧ r = r2 ∧ (p, t) ∈ meetingRequests I ∧ r ∈ I.time_slots
      then 1 else 0
  | .pIn p r, .pOut q r2 =>
      if p = q ∧ r = r2 ∧ parentReq I p = true ∧ r ∈ I.time_slots then 1 else 0
  | .pOut p r, .candB q u r2 =>
      if p = q ∧ r = r2 ∧ (p, u) ∈ meetingRequests I ∧ r ∈ I.time_slots
      then 1 else 0
  | .candB p t r, .tIn u r2 =>
      if t = u ∧ r = r2 ∧ (p, t) ∈ meetingRequests I ∧ r ∈ I.time_slots
      then 1 else 0
  | .tIn t r, .tOut u r2 =>
      if t = u ∧ r = r2 ∧ teacherReq I t = true ∧ r ∈ I.time_slots then 1 else 0
  | .tOut t r, .snk => if t ∈ I.teachers ∧ r ∈ I.time_slots then 1 else 0
  | .tOut t r, .tIn u r2 =>
      if t = u ∧ t ∈ I.teachers ∧ r ∈ I.time_slots ∧ r2 ∈ I.time_slots ∧ r ≠ r2
      then 1 else 0
  | _, _ => 0

/-- The edge weights of the gadget-form network: the candidate edge M → A
costs minus preferred_reward on a preferred slot, the drop edge costs
drop_penalty, the shift edges cost the hard-coded time_shift_penalty 5, and
every other edge costs 0. -/
def wGadget (I : SchedInput P T R) (reward penalty : ℤ) :
    FNode P T R → FNode P T R → ℤ
  | .meet p t, .candA q u r =>
      if p = q ∧ t = u ∧ (p, t) ∈ meetingRequests I ∧ r ∈ I.time_slots
      then (if preferredB I p r then -reward else 0) else 0
  | .meet p t, .snk => if (p, t) ∈ meetingRequests I then penalty else 0
  | .tOut t r, .tIn u r2 =>
      if t = u ∧ t ∈ I.teachers ∧ r ∈ I.time_slots ∧ r2 ∈ I.time_slots ∧ r ≠ r2
      then 5 else 0
  | _, _ => 0

/-- The edge capacities of the network built by the suggestions variant
(with_suggestions lines 21-87): the same candidate chains, no drop edge, no
shift edges, and T_out → sink added per requested (teacher, slot). -/
def capSugg (I : SchedInput P T R) : FNode P T R → FNode P T R → ℕ
  | .src, .meet p t => if (p, t) ∈ meetingRequests I then 1 else 0
  | .meet p t, .candA q u r =>
      if p = q ∧ t = u ∧ (p, t) ∈ meetingRequests I ∧ r ∈ I.time_slots
      then 1 else 0
  | .candA p t r, .pIn q r2 =>
      if p = q ∧ r = r2 ∧ (p, t) ∈ meetingRequests I ∧ r ∈ I.time_slots
      then 1 else 0
  | .pIn p r, .pOut q r2 =>
      if p = q ∧ r = r2 ∧ parentReq I p = true ∧ r ∈ I.time_slots then 1 else 0
  | .pOut p r, .candB q u r2 =>
      if p = q ∧ r = r2 ∧ (p, u) ∈ meetingRequests I ∧ r ∈ I.time_slots
      then 1 else 0
  | .candB p t r, .tIn u r2 =>
      if t = u ∧ r = r2 ∧ (p, t) ∈ meetingRequests I ∧ r ∈ I.time_slots
      then 1 else 0
  | .tIn t r, .tOut u r2 =>
      if t = u ∧ r = r2 ∧ teacherReq I t = true ∧ r ∈ I.time_slots then 1 else 0
  | .tOut t r, .snk => if teacherReq I t = true ∧ r ∈ I.time_slots then 1 else 0
  | _, _ => 0

/-- The edge weights of the suggestions-variant network: only the candidate
edges carry a (negative) cost. -/
def wSugg (I : SchedInput P T R) (reward : ℤ) : FNode P T R → FNode P T R → ℤ
  | .meet p t, .candA q u r =>
      if p = q ∧ t = u ∧ (p, t) ∈ meetingRequests I ∧ r ∈ I.time_slots
      then (if preferredB I p r then -reward else 0) else 0
  | _, _ => 0

variable [Fintype P] [Fintype T] [Fintype R]

/-- Total flow into a node. -/
def inflow (f : FNode P T R → FNode P T R → ℕ) (v : FNode P T R) : ℕ :=
  ∑ u, f u v

/-- Total flow out of a node. -/
def outflow (f : FNode P T R → FNode P T R → ℕ) (v : FNode P T R) : ℕ :=
  ∑ u, f v u

/-- Feasibility of an integral flow for the demands the builders install:
capacities respected, conservation at every internal node, net outflow Rtot
at the source (demand −Rtot) and net inflow Rtot at the sink (demand Rtot).
This is the property networkx network_simplex guarantees of any flow it
returns; the solver itself stays external. -/
def IsFlow (κ : FNode P T R → FNode P T R → ℕ) (Rtot : ℕ)
    (f : FNode P T R → FNode P T R → ℕ) : Prop :=
  (∀ u v, f u v ≤ κ u v) ∧
  (∀ v, v ≠ FNode.src → v ≠ FNode.snk → inflow f v = outflow f v) ∧
  outflow f FNode.src = Rtot + inflow f FNode.src ∧
  inflow f FNode.snk = Rtot + outflow f FNode.snk

/-- The cost of a flow: the sum of weight times flow over all edges.  The
scheduler reports total_reward = −cost. -/
def flowCost (w : FNode P T R → FNode P T R → ℤ)
    (f : FNode P T R → FNode P T R → ℕ) : ℤ :=
  ∑ u, ∑ v, w u v * (f u v : ℤ)

/-- Source translation of the schedule decoding (gadget variant lines
142-156, suggestions variant lines 94-101): for each request, the first
slot in time_slots order whose candidate edge M → A carries positive flow;
none means the request was dropped. -/
def decodeSlot (I : SchedInput P T R) (f : FNode P T R → FNode P T R → ℕ)
    (p : P) (t : T) : Option R :=
  I.time_slots.find? (fun r => decide (0 < f (FNode.meet p t) (FNode.candA p t r)))

/-- The decoded schedule: request → slot, in request order. -/
def decodeSchedule (I : SchedInput P T R)
    (f : FNode P T R → FNode P T R → ℕ) : List ((P × T) × R) :=
  (meetingRequests I).filterMap
    (fun pt => (decodeSlot I f pt.1 pt.2).map (fun r => (pt, r)))

/-- The dropped requests. -/
def unscheduledOf (I : SchedInput P T R)
    (f : FNode P T R → FNode P T R → ℕ) : List (P × T) :=
  (meetingRequests I).filter (fun pt => (decodeSlot I f pt.1 pt.2).isNone)

/-- The number of decoded meetings placed in a preferred slot. -/
def numPreferred (I : SchedInput P T R)
    (f : FNode P T R → FNode P T R → ℕ) : ℕ :=
  (decodeSchedule I f).countP (fun e => preferredB I e.1.1 e.2)

/-- The number of dropped requests. -/
def numDrops (I : SchedInput P T R) (f : FNode P T R → FNode P T R → ℕ) : ℕ :=
  (unscheduledOf I f).length

/-- The total flow on the inter-slot shift edges of a teacher gadget. -/
def shiftFlow (f : FNode P T R → FNode P T R → ℕ) : ℕ :=
  ∑ t, ∑ r, ∑ r2, f (FNode.tOut t r) (FNode.tIn t r2)

end FlowNet

namespace FlowNet

variable {P T R : Type} [DecidableEq P] [DecidableEq T] [DecidableEq R]

open ConfSched

/-- No parent is double-booked in the decoded schedule: two requests of the
same parent never decode to the same slot. -/
def parentInjective [Fintype P] [Fintype T] [Fintype R] (I : SchedInput P T R)
    (f : FNode P T R → FNode P T R → ℕ) : Prop :=
  ∀ p t1 t2 r, decodeSlot I f p t1 = some r → decodeSlot I f p t2 = some r →
    t1 = t2

/-- No teacher is double-booked in the decoded schedule: two requests of
the same teacher never decode to the same slot. -/
def teacherInjective [Fintype P] [Fintype T] [Fintype R] (I : SchedInput P T R)
    (f : FNode P T R → FNode P T R → ℕ) : Prop :=
  ∀ p1 p2 t r, decodeSlot I f p1 t = some r → decodeSlot I f p2 t = some r →
    p1 = p2

/-- The flow the candidate chains deliver into a teacher gadget: the sum of
the B → T_in edges of the gadget. -/
def inflowB [Fintype P] (f : FNode P T R → FNode P T R → ℕ) (t : T) (r : R) : ℕ :=
  ∑ p, f (FNode.candB p t r) (FNode.tIn t r)

/-- The flow obtained from f by removing all shift-edge traffic: each
teacher gadget passes exactly what the candidate chains deliver into it and
sends it straight to the sink; every other edge keeps its flow.  Used to
show a cost-minimal flow never uses a shift edge. -/
def deShift [Fintype P] (f : FNode P T R → FNode P T R → ℕ) :
    FNode P T R → FNode P T R → ℕ
  | .tIn t r, .tOut u r2 =>
      if t = u ∧ r = r2 then inflowB f t r else f (.tIn t r) (.tOut u r2)
  | .tOut t r, .snk => inflowB f t r
  | .tOut _ _, .tIn _ _ => 0
  | u, v => f u v

/-- The total candidate-edge flow placed on preferred slots, summed over
all meeting nodes: the quantity the reward term of the cost counts. -/
def prefFlowTotal [Fintype P] [Fintype T] [Fintype R] (I : SchedInput P T R)
    (f : FNode P T R → FNode P T R → ℕ) : ℕ :=
  ∑ x : P × T, ∑ r : R,
    if preferredB I x.1 r then f (FNode.meet x.1 x.2) (FNode.candA x.1 x.2 r) else 0

/-- The total flow on the drop edges M → sink. -/
def dropFlowTotal [Fintype P] [Fintype T] [Fintype R]
    (f : FNode P T R → FNode P T R → ℕ) : ℕ :=
  ∑ x : P × T, f (FNode.meet x.1 x.2) FNode.snk

/-- The total shift-edge flow entering a teacher gadget's in-node. -/
def shiftInto [Fintype T] [Fintype R] (f : FNode P T R → FNode P T R → ℕ)
    (t : T) (r : R) : ℕ :=
  ∑ y : T × R, f (FNode.tOut y.1 y.2) (FNode.tIn t r)

end FlowNet

namespace Instances

open ConfSched StudentSort FlowNet ConfSuggest

/-- Failing input for the gadget-form scheduler: one slot, one teacher, one
parent requesting that teacher. -/
def I1 : SchedInput (Fin 1) (Fin 1) (Fin 1) :=
  { time_slots := [0]
    teachers := [0]
    parent_preferences := [(0, { teachers := [0], preferred_slots := [] })] }

/-- Instance for the teacher double-booking counterexample: two slots, two
teachers, parent 0 requests both teachers, parent 1 requests teacher 0;
nobody prefers any slot, so every edge weight is 0. -/
def I3 : SchedInput (Fin 2) (Fin 2) (Fin 2) :=
  { time_slots := [0, 1]
    teachers := [0, 1]
    parent_preferences :=
      [(0, { teachers := [0, 1], preferred_slots := [] }),
       (1, { teachers := [0], preferred_slots := [] })] }

/-- The unit edges of a feasible flow on the suggestions-variant network of
I3 in which the unit of request (parent 0, teacher 0) enters the parent
gadget of slot 0 but leaves through teacher 1's gadget, and conversely for
request (parent 0, teacher 1): the decoded schedule then books teacher 0
twice in slot 0. -/
def edges3 :
    List (FNode (Fin 2) (Fin 2) (Fin 2) × FNode (Fin 2) (Fin 2) (Fin 2)) :=
  [(.src, .meet 0 0), (.src, .meet 0 1), (.src, .meet 1 0),
   (.meet 0 0, .candA 0 0 0), (.candA 0 0 0, .pIn 0 0), (.pIn 0 0, .pOut 0 0),
   (.pOut 0 0, .candB 0 1 0), (.candB 0 1 0, .tIn 1 0), (.tIn 1 0, .tOut 1 0),
   (.tOut 1 0, .snk),
   (.meet 0 1, .candA 0 1 1), (.candA 0 1 1, .pIn 0 1), (.pIn 0 1, .pOut 0 1),
   (.pOut 0 1, .candB 0 0 1), (.candB 0 0 1, .tIn 0 1), (.tIn 0 1, .tOut 0 1),
   (.tOut 0 1, .snk),
   (.meet 1 0, .candA 1 0 0), (.candA 1 0 0, .pIn 1 0), (.pIn 1 0, .pOut 1 0),
   (.pOut 1 0, .candB 1 0 0), (.candB 1 0 0, .tIn 0 0), (.tIn 0 0, .tOut 0 0),
   (.tOut 0 0, .snk)]

/-- The crossing flow on I3. -/
def f3 (u v : FNode (Fin 2) (Fin 2) (Fin 2)) : ℕ :=
  if (u, v) ∈ edges3 then 1 else 0

/-- Witness instance for the reward accounting: one slot, one teacher, one
request, no preferred slots. -/
def I5 : SchedInput (Fin 1) (Fin 1) (Fin 1) :=
  { time_slots := [0]
    teachers := [0]
    parent_preferences := [(0, { teachers := [0], preferred_slots := [] })] }

/-- The unit edges of the through-routing flow on I5. -/
def edges5 :
    List (FNode (Fin 1) (Fin 1) (Fin 1) × FNode (Fin 1) (Fin 1) (Fin 1)) :=
  [(.src, .meet 0 0), (.meet 0 0, .candA 0 0 0), (.candA 0 0 0, .pIn 0 0),
   (.pIn 0 0, .pOut 0 0), (.pOut 0 0, .candB 0 0 0), (.candB 0 0 0, .tIn 0 0),
   (.tIn 0 0, .tOut 0 0), (.tOut 0 0, .snk)]

/-- The through-routing flow on I5. -/
def f5 (u v : FNode (Fin 1) (Fin 1) (Fin 1)) : ℕ :=
  if (u, v) ∈ edges5 then 1 else 0

/-- Counterexample input for the suggestion ordering: two available slots
given in the order 18:00, 17:00, none preferred; the Python sort key
compares the slot strings, so 17:00 comes out first. -/
def sched6 : Sched := [(("P", "T"), "18:00")]

/-- The slot list of the suggestion counterexample. -/
def slots6 : List String := ["18:00", "17:00"]

/-- Counterexample dataset for the reciprocity fraction: student s lists a
and b, b lists a, a lists nobody.  The single co-listed pair (a, b) has
a in prefs(b), so the source counts it reciprocated and reports fraction 1,
although a and b do not both list each other. -/
def ds8 : List (String × StudentData) :=
  [("s", ⟨["a", "b"], []⟩), ("a", ⟨[], []⟩), ("b", ⟨["a"], []⟩)]

/-- Counterexample dataset for the cluster partition: a lists b, while c
has no preference edge at all, so c never enters the preference graph. -/
def ds9 : List (String × StudentData) :=
  [("a", ⟨["b"], []⟩), ("b", ⟨[], []⟩), ("c", ⟨[], []⟩)]

/-- A concrete community labelling for ds9 (any labelling gives the same
conclusion: c is not a graph node, so it is in no cluster). -/
def part9 : String → Nat := fun _ => 0

/-- Counterexample dataset for the full ILP formulation: a and b list each
other and both list x; x lists nobody.  The ordered pair (x, a) is never
iterated by the constraint loop, and the last loop iteration overwrites the
full-pair objective. -/
def ds2 : List (String × StudentData) :=
  [("a", ⟨["b", "x"], []⟩), ("b", ⟨["a", "x"], []⟩), ("x", ⟨[], []⟩)]

/-- The single class of the ds2 instance. -/
def cs2 : List (String × Nat) := [("C", 3)]

/-- A throwaway gender-fraction argument for calls with factor_gender
off. -/
def gr0 : GenderFracs := ⟨1/2, 1/2⟩

/-- Counterexample dataset for the capacity claim: two students, one class
of capacity 1, and a solver valuation that sets every assignment variable
to 1. -/
def ds4 : List (String × StudentData) :=
  [("a", ⟨[], []⟩), ("b", ⟨[], []⟩)]

/-- The single class of the ds4 instance. -/
def cs4 : List (String × Nat) := [("c1", 1)]

/-- The all-ones solver valuation. -/
def val4 : String → String → Bool := fun _ _ => true

/-- A clustered dataset (two mutual triangles are unnecessary; one triangle
of mutual listings already yields reciprocity 1) used to drive
combined_ilp_solver_rand_detection into its clustered branch. -/
def ds7 : List (String × StudentData) :=
  [("s1", ⟨["s2", "s3"], []⟩), ("s2", ⟨["s1", "s3"], []⟩),
   ("s3", ⟨["s1", "s2"], []⟩)]

/-- The class dictionary of the ds7 instance. -/
def cs7 : List (String × Nat) := [("c1", 3)]

/-- An arbitrary incumbent assignment for the dispatch counterexample. -/
def asg7 : List (String × List String) := [("c1", ["s1"])]

/-- An arbitrary fallback assignment for the dispatch counterexample. -/
def fb7 : List (String × List String) := [("c1", ["s2"])]

/-- Dataset with one student record lacking the "sex" key. -/
def ds10 : List (String × StudentData) :=
  [("a", ⟨[], [("sex", "m")]⟩), ("b", ⟨[], []⟩)]

/-- Dataset with every record carrying the "sex" key. -/
def ds10ok : List (String × StudentData) :=
  [("a", ⟨[], [("sex", "m")]⟩), ("b", ⟨[], [("sex", "f")]⟩)]

/-- The class dictionary of the gender instances. -/
def cs10 : List (String × Nat) := [("C", 2)]

/-- The all-zero solver valuation, which satisfies every capacity bound. -/
def val0 : String → String → Bool := fun _ _ => false

/-- The model the full builder produces on the ds2 instance (the build
succeeds, as the accompanying theorem certifies). -/
def m2 : Model :=
  ((buildLessModel ds2 cs2 gr0 false none false none false).toOption).getD
    ⟨⟨[], 0⟩, []⟩

end Instances

namespace FlowNet

/-- A cost-minimal feasible flow: what networkx network_simplex returns. -/
def IsMinCostFlow {P T R : Type} [DecidableEq P] [DecidableEq T]
    [DecidableEq R] [Fintype P] [Fintype T] [Fintype R]
    (κ : FNode P T R → FNode P T R → ℕ) (w : FNode P T R → FNode P T R → ℤ)
    (Rtot : ℕ) (f : FNode P T R → FNode P T R → ℕ) : Prop :=
  IsFlow κ Rtot f ∧ ∀ g, IsFlow κ Rtot g → flowCost w f ≤ flowCost w g

end FlowNet

-- Definitions end here; the development's lemmas and claim theorems follow.

open ConfSched ConfSuggest StudentSort FlowNet Instances

theorem lookup_eq_of_mem_nodupKeys {α β : Type} [DecidableEq α]
    {l : List (α × β)} (hnd : (l.map Prod.fst).Nodup) {k : α} {v : β}
    (hm : (k, v) ∈ l) : l.lookup k = some v := by
  induction l with
  | nil => cases hm
  | cons hd tl ih =>
    obtain ⟨k1, v1⟩ := hd
    rw [List.map_cons, List.nodup_cons] at hnd
    rcases List.mem_cons.mp hm with h | h
    · rw [Prod.mk.injEq] at h
      rw [h.1, h.2]
      simp [List.lookup]
    · have hk : k ≠ k1 := by
        intro he
        apply hnd.1
        have hmem : k ∈ List.map Prod.fst tl := List.mem_map_of_mem Prod.fst h
        rw [← he]
        exact hmem
      have hbeq : (k == k1) = false := beq_eq_false_iff_ne.mpr hk
      simp only [List.lookup, hbeq]
      exact ih hnd.2 h

theorem mem_of_lookup_eq_some {α β : Type} [DecidableEq α]
    {l : List (α × β)} {k : α} {v : β} (h : l.lookup k = some v) :
    (k, v) ∈ l := by
  induction l with
  | nil => simp [List.lookup] at h
  | cons hd tl ih =>
    obtain ⟨k1, v1⟩ := hd
    by_cases hk : k = k1
    · subst hk
      simp only [List.lookup, beq_self_eq_true] at h
      rw [Option.some.injEq] at h
      rw [← h]
      exact List.mem_cons_self _ _
    · have hbeq : (k == k1) = false := beq_eq_false_iff_ne.mpr hk
      simp only [List.lookup, hbeq] at h
      exact List.mem_cons_of_mem _ (ih h)

theorem eq_of_mem_mem_nodupKeys {α β : Type}
    {l : List (α × β)} (hnd : (l.map Prod.fst).Nodup) {a b : α × β}
    (ha : a ∈ l) (hb : b ∈ l) (hfst : a.1 = b.1) : a = b := by
  induction l with
  | nil => cases ha
  | cons hd tl ih =>
    rw [List.map_cons, List.nodup_cons] at hnd
    rcases List.mem_cons.mp ha with h1 | h1 <;>
      rcases List.mem_cons.mp hb with h2 | h2
    · rw [h1, h2]
    · exfalso
      apply hnd.1
      have hmem : b.1 ∈ List.map Prod.fst tl := List.mem_map_of_mem Prod.fst h2
      rw [h1] at hfst
      rw [← hfst] at hmem
      exact hmem
    · exfalso
      apply hnd.1
      have hmem : a.1 ∈ List.map Prod.fst tl := List.mem_map_of_mem Prod.fst h1
      rw [h2] at hfst
      rw [hfst] at hmem
      exact hmem
    · exact ih hnd.2 h1 h2

theorem countP_eq_one_of_nodup {l : List Nat} (hnd : l.Nodup) {x : Nat}
    (hx : x ∈ l) : l.countP (fun c => decide (x = c)) = 1 := by
  induction l with
  | nil => cases hx
  | cons hd tl ih =>
    have hnd2 := List.nodup_cons.mp hnd
    rcases List.mem_cons.mp hx with h | h
    · subst h
      rw [List.countP_cons]
      have hz : tl.countP (fun c => decide (x = c)) = 0 := by
        rw [List.countP_eq_zero]
        intro a ha
        simp only [decide_eq_true_eq]
        intro he
        exact hnd2.1 (he ▸ ha)
      simp [hz]
    · rw [List.countP_cons]
      have hx2 : x ≠ hd := by
        intro he
        exact hnd2.1 (he ▸ h)
      simp [ih hnd2.2 h, hx2]

/-- C1: on any input in which at least one parent appears (in particular
whenever some parent requests some teacher), the gadget-form scheduler does
not return the documented (schedule, total_reward, unscheduled) triple:
feasibility_check evaluates the unbound name t, so the call raises
NameError before the flow network is even built. -/
theorem C1_gadget_scheduler_raises_nameerror {P T R : Type}
    (I : ConfSched.SchedInput P T R) (pd : P × ConfSched.ParentPrefs T R)
    (hmem : pd ∈ I.parent_preferences) (t : T) (ht : t ∈ pd.2.teachers) :
    schedule_meetings_optimal_entry I = GadgetOutcome.raised PyErr.nameError := by
  have hne : I.parent_preferences ≠ [] := List.ne_nil_of_mem hmem
  simp [schedule_meetings_optimal_entry, feasibility_check, hne]

/-- Witness for C1: the concrete failing input I1 (one slot, one teacher,
one parent requesting that teacher) raises NameError. -/
theorem C1_witness :
    ((0 : Fin 1),
        ({ teachers := [0], preferred_slots := [] } :
          ConfSched.ParentPrefs (Fin 1) (Fin 1))) ∈ I1.parent_preferences ∧
    (0 : Fin 1) ∈ [(0 : Fin 1)] ∧
    schedule_meetings_optimal_entry I1 = GadgetOutcome.raised PyErr.nameError :=
  ⟨by decide, by decide,
    C1_gadget_scheduler_raises_nameerror I1
      ((0 : Fin 1), { teachers := [0], preferred_slots := [] })
      (by decide) 0 (by decide)⟩

/-- C9 counterexample: in ds9 the student c lists nobody and is listed by
nobody, so it never enters the preference graph and lies in no cluster of
preprocess, refuting the claim that every student belongs to exactly one
cluster with isolated students forming singletons. -/
theorem C9_counterexample :
    "c" ∈ keysOf ds9 ∧
    (clustersOf ds9 part9).countP (fun cl => decide ("c" ∈ cl.2)) = 0 := by
  decide

/-- C9 amended: for every dataset and every labelling produced by the
community-detection routine, the clusters of preprocess partition exactly
the nodes of the built preference graph: a student lies in exactly one
cluster iff it occurs in some preference edge, and in no cluster
otherwise. -/
theorem C9_clusters_partition_graph_nodes
    (ds : List (String × StudentData)) (part : String → Nat) (s : String) :
    (clustersOf ds part).countP (fun cl => decide (s ∈ cl.2)) =
      if s ∈ graphNodes ds then 1 else 0 := by
  unfold clustersOf
  rw [List.countP_map]
  by_cases hs : s ∈ graphNodes ds
  · rw [if_pos hs]
    have hcong : ∀ c ∈ ((graphNodes ds).map part).dedup,
        ((fun cl => decide (s ∈ cl.2)) ∘
          (fun c => (c, (graphNodes ds).filter (fun n => part n = c)))) c
            = true ↔
        (fun c => decide (part s = c)) c = true := by
      intro c _
      simp only [Function.comp, decide_eq_true_eq]
      constructor
      · intro hmem
        have := (List.mem_filter.mp hmem).2
        simpa using this
      · intro hc
        exact List.mem_filter.mpr ⟨hs, by simpa using hc⟩
    rw [List.countP_congr hcong]
    exact countP_eq_one_of_nodup (List.nodup_dedup _)
      (List.mem_dedup.mpr (List.mem_map_of_mem part hs))
  · rw [if_neg hs]
    rw [List.countP_eq_zero]
    intro c _
    simp only [Function.comp, decide_eq_true_eq]
    intro hmem
    exact hs (List.mem_filter.mp hmem).1

theorem simCounts_inner (ds : List (String × StudentData))
    (prs : List (String × String)) (acc : Nat × Nat) :
    prs.foldl
      (fun acc2 pr =>
        (acc2.1 + 1,
          if pr.1 ∈ (lookupD ds pr.2).prefs then acc2.2 + 1 else acc2.2))
      acc =
    (acc.1 + prs.length,
      acc.2 + prs.countP (fun pr => decide (pr.1 ∈ (lookupD ds pr.2).prefs))) := by
  induction prs generalizing acc with
  | nil => simp
  | cons hd tl ih =>
    rw [List.foldl_cons, ih]
    rw [List.length_cons, List.countP_cons]
    by_cases hc : hd.1 ∈ (lookupD ds hd.2).prefs <;>
      simp [hc, Prod.ext_iff] <;> omega

theorem simCounts_outer (ds l : List (String × StudentData)) (acc : Nat × Nat) :
    l.foldl
      (fun acc sd =>
        (pairsOf sd.2.prefs).foldl
          (fun acc2 pr =>
            (acc2.1 + 1,
              if pr.1 ∈ (lookupD ds pr.2).prefs then acc2.2 + 1 else acc2.2))
          acc)
      acc =
    (acc.1 + (l.flatMap (fun sd => pairsOf sd.2.prefs)).length,
      acc.2 + (l.flatMap (fun sd => pairsOf sd.2.prefs)).countP
        (fun pr => decide (pr.1 ∈ (lookupD ds pr.2).prefs))) := by
  induction l generalizing acc with
  | nil => simp
  | cons hd tl ih =>
    rw [List.foldl_cons, simCounts_inner, ih]
    rw [List.flatMap_cons, List.length_append, List.countP_append]
    simp [Prod.ext_iff]
    omega

theorem simCounts_eq (ds : List (String × StudentData)) :
    simCounts ds = ((coListedPairs ds).length,
      (coListedPairs ds).countP
        (fun pr => decide (pr.1 ∈ (lookupD ds pr.2).prefs))) := by
  unfold simCounts coListedPairs
  rw [simCounts_outer]
  simp

theorem detect_label_ite (c : Prop) [Decidable c] :
    (if c then clusteredLabel else randomLabel) = clusteredLabel ↔ c := by
  by_cases h : c
  · simp [h]
  · simp only [h, if_false]
    constructor
    · intro he
      exact absurd he (by decide)
    · intro hc
      exact hc.elim

/-- C8 counterexample: on ds8 the source computes reciprocity 1 and reports
Clustered, although the single unordered co-listed pair is not reciprocated
in the claim's sense (both students listing each other): the spec-side
fraction is 0, which is below the threshold 3/4. -/
theorem C8_counterexample :
    detect_preference_type ds8 (3/4) = clusteredLabel ∧
    specReciprocalFraction ds8 = 0 ∧
    ¬ ((0 : ℚ) ≥ 3/4) := by
  refine ⟨?_, ?_, by norm_num⟩
  · have h1 : simCounts ds8 = (1, 1) := by decide
    have h2 : average_similarity ds8 = 1 := by
      unfold average_similarity
      rw [h1]
      norm_num
    unfold detect_preference_type
    rw [h2]
    norm_num
  · unfold specReciprocalFraction
    dsimp only
    have h1 : (((coListedPairs ds8).map
        (fun pr => if chLt pr.2.data pr.1.data then (pr.2, pr.1) else pr)).dedup)
        = [("a", "b")] := by decide
    rw [h1]
    have h2 : ([(("a" : String), ("b" : String))]).countP
        (fun pr => decide (pr.2 ∈ (lookupD ds8 pr.1).prefs ∧
          pr.1 ∈ (lookupD ds8 pr.2).prefs)) = 0 := by decide
    rw [h2]
    norm_num

/-- C8 amended: the selector classifies a dataset as Clustered exactly when
the fraction, over the ordered pairs drawn as combinations from each single
student's preference list, of pairs (a, b) such that a is listed in b's
preference list, is at least the threshold; a dataset with no such pair
yields fraction 0. -/
theorem C8_detect_threshold_characterization
    (ds : List (String × StudentData)) (θ : ℚ) :
    detect_preference_type ds θ = clusteredLabel ↔
      (if (coListedPairs ds).length = 0 then (0 : ℚ)
       else ((coListedPairs ds).countP
            (fun pr => decide (pr.1 ∈ (lookupD ds pr.2).prefs)) : ℚ) /
          ((coListedPairs ds).length : ℚ)) ≥ θ := by
  unfold detect_preference_type average_similarity
  rw [simCounts_eq, detect_label_ite]

/-- C7 counterexample: on a clustered dataset, an infeasible solve status
(PuLP sol_status -1) matches neither handled branch of
combined_ilp_solver_rand_detection, so the function falls off the end and
returns None, against the claim that it never returns nothing. -/
theorem C7_counterexample :
    combined_ilp_solver_rand_detection ds7 cs7 asg7 (-1) fb7 = none := by
  have h1 : simCounts ds7 = (3, 3) := by decide
  have h2 : average_similarity ds7 = 1 := by
    unfold average_similarity
    rw [h1]
    norm_num
  have h3 : detect_preference_type ds7 (3/4) = clusteredLabel := by
    unfold detect_preference_type
    rw [h2]
    norm_num
  unfold combined_ilp_solver_rand_detection
  rw [if_pos h3]
  decide

/-- C7 amended: on the clustered path, status 1 (optimal) returns the
incumbent, status 2 (feasible, not proven optimal) returns the incumbent
when it respects every capacity bound and otherwise the fallback solve
result, and any other status, the infeasible status -1 included, returns
None. -/
theorem C7_dispatch_characterization (students : List (String × StudentData))
    (cs : List (String × Nat))
    (initialAsg fallbackAsg : List (String × List String)) (status : Int)
    (h : detect_preference_type students (3/4) = clusteredLabel) :
    (status = 1 →
      combined_ilp_solver_rand_detection students cs initialAsg status
        fallbackAsg = some initialAsg) ∧
    (status = 2 →
      combined_ilp_solver_rand_detection students cs initialAsg status
          fallbackAsg =
        if initialAsg.all (fun cm => cm.2.length ≤ (cs.lookup cm.1).getD 0)
        then some initialAsg else some fallbackAsg) ∧
    (status ≠ 1 → status ≠ 2 →
      combined_ilp_solver_rand_detection students cs initialAsg status
        fallbackAsg = none) := by
  unfold combined_ilp_solver_rand_detection clusteredDispatch
  rw [if_pos h]
  refine ⟨?_, ?_, ?_⟩
  · intro h1
    rw [if_pos h1]
  · intro h2
    have h1 : ¬ status = 1 := by omega
    rw [if_neg h1, if_pos h2]
  · intro h1 h2
    rw [if_neg h1, if_neg h2]

/-- Witness for C7 at a concrete clustered input with an optimal status. -/
theorem C7_witness :
    combined_ilp_solver_rand_detection ds7 cs7 asg7 1 fb7 = some asg7 := by
  have h1 : simCounts ds7 = (3, 3) := by decide
  have h2 : average_similarity ds7 = 1 := by
    unfold average_similarity
    rw [h1]
    norm_num
  have h3 : detect_preference_type ds7 (3/4) = clusteredLabel := by
    unfold detect_preference_type
    rw [h2]
    norm_num
  exact (C7_dispatch_characterization ds7 cs7 asg7 fb7 1 h3).1 rfl

/-- C4 counterexample: with two students, one class of capacity 1 and a
solver outcome that values every assignment variable 1, the decoded class
holds 2 students, so the capacity bound fails right after decoding: the
claim cannot hold for every solver outcome. -/
theorem C4_counterexample :
    ("c1", 1) ∈ cs4 ∧
    (membersOf (decodeAssignments ds4 cs4 val4) "c1").length = 2 ∧
    ¬ ((membersOf (decodeAssignments ds4 cs4 val4) "c1").length ≤ 1) := by
  decide

theorem foldl_bestStep_spec (cs : List (String × Nat)) (prefs : List String)
    (asg : List (String × List String)) :
    ∀ (l : List (String × List String)) (acc : Option (Nat × String)),
      (∀ cm ∈ l, cm ∈ asg) →
      (∀ b, acc = some b → ∃ cm ∈ asg, cm.1 = b.2 ∧
        cm.2.length < (cs.lookup cm.1).getD 0) →
      ∀ b, l.foldl (bestStep cs prefs) acc = some b →
        ∃ cm ∈ asg, cm.1 = b.2 ∧ cm.2.length < (cs.lookup cm.1).getD 0 := by
  intro l
  induction l with
  | nil =>
    intro acc hsub hacc b hfold
    exact hacc b hfold
  | cons hd tl ih =>
    intro acc hsub hacc b hfold
    rw [List.foldl_cons] at hfold
    refine ih _ (fun cm hm => hsub cm (List.mem_cons_of_mem _ hm)) ?_ b hfold
    intro b0 hb0
    unfold bestStep at hb0
    rcases acc with _ | a
    · simp only [] at hb0
      by_cases hlen : hd.2.length < (cs.lookup hd.1).getD 0
      · rw [if_pos hlen] at hb0
        rw [Option.some.injEq] at hb0
        exact ⟨hd, hsub hd (List.mem_cons_self _ _), by rw [← hb0], hlen⟩
      · rw [if_neg hlen] at hb0
        cases hb0
    · simp only [] at hb0
      by_cases hcond : interCount prefs hd.2 > a.1 ∧
          hd.2.length < (cs.lookup hd.1).getD 0
      · rw [if_pos hcond] at hb0
        rw [Option.some.injEq] at hb0
        exact ⟨hd, hsub hd (List.mem_cons_self _ _), by rw [← hb0], hcond.2⟩
      · rw [if_neg hcond] at hb0
        exact hacc b0 hb0

theorem bestClass_spec (cs : List (String × Nat))
    (asg : List (String × List String)) (prefs : List String) (b : Nat × String)
    (h : bestClass cs asg prefs = some b) :
    ∃ cm ∈ asg, cm.1 = b.2 ∧ cm.2.length < (cs.lookup cm.1).getD 0 := by
  unfold bestClass at h
  exact foldl_bestStep_spec cs prefs asg asg none (fun _ hm => hm)
    (by intro b0 hb0; cases hb0) b h

theorem appendTo_keys (asg : List (String × List String)) (c s : String) :
    (appendTo asg c s).map Prod.fst = asg.map Prod.fst := by
  unfold appendTo
  rw [List.map_map]
  apply List.map_congr_left
  intro cm _
  by_cases hc : cm.1 = c <;> simp [hc]

theorem repairStudent_inv (ds : List (String × StudentData))
    (cs : List (String × Nat)) (asg : List (String × List String)) (s : String)
    (hkeys : asg.map Prod.fst = cs.map Prod.fst)
    (hnd : (cs.map Prod.fst).Nodup)
    (hcap : ∀ cm ∈ asg, cm.2.length ≤ (cs.lookup cm.1).getD 0) :
    (repairStudent ds cs asg s).map Prod.fst = cs.map Prod.fst ∧
    ∀ cm ∈ repairStudent ds cs asg s,
      cm.2.length ≤ (cs.lookup cm.1).getD 0 := by
  unfold repairStudent
  cases hb : bestClass cs asg (lookupD ds s).prefs with
  | none => exact ⟨hkeys, hcap⟩
  | some b =>
    dsimp only
    by_cases hne : b.2 ≠ ""
    · rw [if_pos hne]
      obtain ⟨cm0, hcm0, hfst0, hlt0⟩ := bestClass_spec cs asg _ b hb
      refine ⟨by rw [appendTo_keys]; exact hkeys, ?_⟩
      intro cm hm
      unfold appendTo at hm
      rw [List.mem_map] at hm
      obtain ⟨cm1, hcm1, hcmeq⟩ := hm
      by_cases hc : cm1.1 = b.2
      · rw [if_pos hc] at hcmeq
        have hasgnd : (asg.map Prod.fst).Nodup := by
          rw [hkeys]
          exact hnd
        have : cm1 = cm0 := by
          apply eq_of_mem_mem_nodupKeys hasgnd hcm1 hcm0
          rw [hc, hfst0]
        rw [← hcmeq]
        simp only [List.length_append, List.length_cons, List.length_nil]
        rw [this]
        omega
      · rw [if_neg hc] at hcmeq
        rw [← hcmeq]
        exact hcap cm1 hcm1
    · rw [if_neg hne]
      exact ⟨hkeys, hcap⟩

theorem repairFold_inv (ds : List (String × StudentData))
    (cs : List (String × Nat)) (hnd : (cs.map Prod.fst).Nodup) :
    ∀ (l : List String) (asg : List (String × List String)),
      asg.map Prod.fst = cs.map Prod.fst →
      (∀ cm ∈ asg, cm.2.length ≤ (cs.lookup cm.1).getD 0) →
      (l.foldl (repairStudent ds cs) asg).map Prod.fst = cs.map Prod.fst ∧
      ∀ cm ∈ l.foldl (repairStudent ds cs) asg,
        cm.2.length ≤ (cs.lookup cm.1).getD 0 := by
  intro l
  induction l with
  | nil =>
    intro asg hkeys hcap
    exact ⟨hkeys, hcap⟩
  | cons hd tl ih =>
    intro asg hkeys hcap
    rw [List.foldl_cons]
    obtain ⟨hk2, hc2⟩ := repairStudent_inv ds cs asg hd hkeys hnd hcap
    exact ih _ hk2 hc2

theorem decodeAssignments_keys (ds : List (String × StudentData))
    (cs : List (String × Nat)) (val : String → String → Bool) :
    (decodeAssignments ds cs val).map Prod.fst = cs.map Prod.fst := by
  unfold decodeAssignments
  rw [List.map_map]
  rfl

/-- C4 amended: whenever the solver outcome satisfies the model's capacity
constraints (as a returned incumbent does), the decoded assignment respects
every class capacity, and the greedy repair step preserves this: it only
ever places a student into a class with remaining capacity. -/
theorem C4_capacity_conditional (ds : List (String × StudentData))
    (cs : List (String × Nat)) (val : String → String → Bool)
    (hnd : (cs.map Prod.fst).Nodup)
    (hval : ∀ c ∈ cs, ((keysOf ds).filter (fun s => val s c.1)).length ≤ c.2) :
    (∀ c ∈ cs, (membersOf (decodeAssignments ds cs val) c.1).length ≤ c.2) ∧
    (∀ c ∈ cs, (membersOf (repairAll ds cs val) c.1).length ≤ c.2) := by
  have hdk := decodeAssignments_keys ds cs val
  have hdcap : ∀ cm ∈ decodeAssignments ds cs val,
      cm.2.length ≤ (cs.lookup cm.1).getD 0 := by
    intro cm hm
    unfold decodeAssignments at hm
    rw [List.mem_map] at hm
    obtain ⟨c, hc, hceq⟩ := hm
    have hl : cs.lookup c.1 = some c.2 := lookup_eq_of_mem_nodupKeys hnd (by
      rw [show ((c.1 : String), (c.2 : Nat)) = c from rfl]
      exact hc)
    rw [← hceq]
    simp only [hl, Option.getD_some]
    exact hval c hc
  have hmem : ∀ (asg : List (String × List String)),
      asg.map Prod.fst = cs.map Prod.fst →
      (∀ cm ∈ asg, cm.2.length ≤ (cs.lookup cm.1).getD 0) →
      ∀ c ∈ cs, (membersOf asg c.1).length ≤ c.2 := by
    intro asg hkeys hcap c hc
    have hck : c.1 ∈ asg.map Prod.fst := by
      rw [hkeys]
      exact List.mem_map_of_mem Prod.fst hc
    rw [List.mem_map] at hck
    obtain ⟨cm, hcm, hcmf⟩ := hck
    have hasgnd : (asg.map Prod.fst).Nodup := by
      rw [hkeys]
      exact hnd
    have hl : asg.lookup c.1 = some cm.2 := by
      apply lookup_eq_of_mem_nodupKeys hasgnd
      rw [show ((c.1 : String), cm.2) = (cm.1, cm.2) from by rw [hcmf]]
      exact hcm
    have hlc : cs.lookup c.1 = some c.2 := lookup_eq_of_mem_nodupKeys hnd (by
      rw [show ((c.1 : String), (c.2 : Nat)) = c from rfl]
      exact hc)
    unfold membersOf
    rw [hl]
    simp only [Option.getD_some]
    have := hcap cm hcm
    rw [hcmf, hlc] at this
    simpa using this
  constructor
  · exact hmem _ hdk hdcap
  · unfold repairAll
    obtain ⟨hk2, hc2⟩ := repairFold_inv ds cs hnd (unassignedStudents ds cs val)
      (decodeAssignments ds cs val) hdk hdcap
    exact hmem _ hk2 hc2

/-- Witness for C4 at a concrete input with the all-zero valuation. -/
theorem C4_witness :
    (membersOf (repairAll ds4 cs4 val0) "c1").length ≤ 1 :=
  (C4_capacity_conditional ds4 cs4 val0 (by decide) (by decide)).2
    ("c1", 1) (by decide)

theorem foldlM_except_ok {ε α β : Type} (l : List α) (step : β → α → Except ε β)
    (h : ∀ a ∈ l, ∀ b, ∃ b2, step b a = .ok b2) :
    ∀ b, ∃ out, l.foldlM step b = .ok out := by
  induction l with
  | nil =>
    intro b
    exact ⟨b, rfl⟩
  | cons hd tl ih =>
    intro b
    obtain ⟨b2, hb2⟩ := h hd (List.mem_cons_self _ _) b
    obtain ⟨out, hout⟩ := ih (fun a ha b => h a (List.mem_cons_of_mem _ ha) b) b2
    refine ⟨out, ?_⟩
    rw [List.foldlM_cons, hb2]
    simpa using hout

theorem sexFiltered_ok (ds : List (String × StudentData)) (g : String)
    (hsex : ∀ sd ∈ ds, (sd.2.extra.lookup "sex").isSome = true) :
    ∃ l, sexFiltered ds g = .ok l := by
  induction ds with
  | nil => exact ⟨[], rfl⟩
  | cons hd tl ih =>
    have hhd := hsex hd (List.mem_cons_self _ _)
    obtain ⟨x, hx⟩ := Option.isSome_iff_exists.mp hhd
    obtain ⟨l, hl⟩ := ih (fun sd hm => hsex sd (List.mem_cons_of_mem _ hm))
    refine ⟨if x = g then hd.1 :: l else l, ?_⟩
    unfold sexFiltered
    rw [hx, hl]
    rfl

theorem genderConstraints_ok (ds : List (String × StudentData))
    (cs : List (String × Nat)) (gr : GenderFracs)
    (hsex : ∀ sd ∈ ds, (sd.2.extra.lookup "sex").isSome = true) :
    ∃ l, genderConstraints ds cs gr = .ok l := by
  obtain ⟨lm, hm⟩ := sexFiltered_ok ds "m" hsex
  obtain ⟨lf, hf⟩ := sexFiltered_ok ds "f" hsex
  unfold genderConstraints
  apply foldlM_except_ok
  intro c _ acc
  refine ⟨acc ++
    [Constr.le (lpSum1 (lm.map (fun s => SVar.assign s c.1)))
      (Affine.constE (gr.m * (c.2 : ℚ))),
     Constr.le (lpSum1 (lf.map (fun s => SVar.assign s c.1)))
      (Affine.constE (gr.f * (c.2 : ℚ)))], ?_⟩
  rw [hm, hf]
  rfl

theorem prefTriples_mem (ds : List (String × StudentData))
    (cs : List (String × Nat))
    (hclean : ∀ sd ∈ ds, ∀ p ∈ sd.2.prefs, p ∈ keysOf ds ∧ p ≠ sd.1)
    {t : String × String × String} (ht : t ∈ prefTriples ds cs) :
    t.2.1 ∈ keysOf ds ∧ t.1 ≠ t.2.1 := by
  unfold prefTriples at ht
  rw [List.mem_flatMap] at ht
  obtain ⟨s1, hs1, ht2⟩ := ht
  rw [List.mem_flatMap] at ht2
  obtain ⟨s2, hs2, ht3⟩ := ht2
  rw [List.mem_map] at ht3
  obtain ⟨c, _, hceq⟩ := ht3
  cases hl : ds.lookup s1 with
  | none =>
    unfold lookupD at hs2
    rw [hl] at hs2
    cases hs2
  | some d =>
    unfold lookupD at hs2
    rw [hl] at hs2
    have hmem := mem_of_lookup_eq_some hl
    have := hclean (s1, d) hmem s2 hs2
    rw [← hceq]
    exact ⟨this.1, fun he => this.2 he.symm⟩

theorem prefLoop_ok (ds : List (String × StudentData))
    (cs : List (String × Nat))
    (hclean : ∀ sd ∈ ds, ∀ p ∈ sd.2.prefs, p ∈ keysOf ds ∧ p ≠ sd.1) :
    ∃ res, prefLoop ds cs = .ok res := by
  unfold prefLoop
  apply foldlM_except_ok
  intro t ht acc
  obtain ⟨hk, hne⟩ := prefTriples_mem ds cs hclean ht
  obtain ⟨s1, s2, c⟩ := t
  simp only [] at hk hne
  refine ⟨(acc.1 ++
      andConstraints (SVar.common s1 s2 c) (SVar.assign s1 c) (SVar.assign s2 c),
    some ⟨[((commonPrefCount ds s1 s2 : ℚ), SVar.common s1 s2 c)], 0⟩), ?_⟩
  dsimp only
  rw [if_pos hk, if_neg hne]

theorem graphNodes_subset_keys (ds : List (String × StudentData))
    (hclean : ∀ sd ∈ ds, ∀ p ∈ sd.2.prefs, p ∈ keysOf ds ∧ p ≠ sd.1) :
    ∀ x ∈ graphNodes ds, x ∈ keysOf ds := by
  intro x hx
  unfold graphNodes at hx
  rw [List.mem_dedup, List.mem_flatMap] at hx
  obtain ⟨e, he, hxe⟩ := hx
  unfold prefEdges at he
  rw [List.mem_flatMap] at he
  obtain ⟨sd, hsd, he2⟩ := he
  rw [List.mem_map] at he2
  obtain ⟨p, hp, hpe⟩ := he2
  rcases List.mem_cons.mp hxe with h | h
  · rw [h, ← hpe]
    exact List.mem_map_of_mem Prod.fst hsd
  · rw [List.mem_singleton] at h
    rw [h, ← hpe]
    exact (hclean sd hsd p hp).1

theorem clusterTriples_mem (ds : List (String × StudentData))
    (cs : List (String × Nat)) (part : String → Nat)
    {t : String × String × String} (ht : t ∈ clusterTriples ds cs part) :
    t.1 ∈ graphNodes ds ∧ t.2.1 ∈ graphNodes ds := by
  unfold clusterTriples at ht
  rw [List.mem_flatMap] at ht
  obtain ⟨cl, hcl, ht2⟩ := ht
  rw [List.mem_flatMap] at ht2
  obtain ⟨s1, hs1, ht3⟩ := ht2
  rw [List.mem_flatMap] at ht3
  obtain ⟨s2, hs2, ht4⟩ := ht3
  unfold clustersOf at hcl
  rw [List.mem_map] at hcl
  obtain ⟨c, _, hceq⟩ := hcl
  have hcl2 : cl.2 = (graphNodes ds).filter (fun n => part n = c) := by
    rw [← hceq]
  rw [hcl2] at hs1 hs2
  have h1 := (List.mem_filter.mp hs1).1
  have h2 := (List.mem_filter.mp hs2).1
  by_cases he : s1 = s2
  · rw [he] at ht4
    simp at ht4
  · rw [if_neg he] at ht4
    rw [List.mem_map] at ht4
    obtain ⟨cc, _, hcc⟩ := ht4
    rw [← hcc]
    exact ⟨h1, h2⟩

theorem preObjectiveTerms_ok (ds : List (String × StudentData))
    (cs : List (String × Nat)) (part : String → Nat)
    (hclean : ∀ sd ∈ ds, ∀ p ∈ sd.2.prefs, p ∈ keysOf ds ∧ p ≠ sd.1) :
    ∃ l, preObjectiveTerms ds cs part = .ok l := by
  unfold preObjectiveTerms
  apply foldlM_except_ok
  intro t ht acc
  obtain ⟨h1, h2⟩ := clusterTriples_mem ds cs part ht
  obtain ⟨s1, s2, c⟩ := t
  simp only [] at h1 h2
  refine ⟨acc ++ [((commonPrefCount ds s1 s2 : ℚ), SVar.common s1 s2 c)], ?_⟩
  dsimp only
  rw [if_pos ⟨graphNodes_subset_keys ds hclean s1 h1,
    graphNodes_subset_keys ds hclean s2 h2⟩]

theorem preAndConstraints_ok (ds : List (String × StudentData))
    (cs : List (String × Nat)) (part : String → Nat)
    (hclean : ∀ sd ∈ ds, ∀ p ∈ sd.2.prefs, p ∈ keysOf ds ∧ p ≠ sd.1) :
    ∃ l, preAndConstraints ds cs part = .ok l := by
  unfold preAndConstraints
  apply foldlM_except_ok
  intro t ht acc
  obtain ⟨h1, h2⟩ := clusterTriples_mem ds cs part ht
  obtain ⟨s1, s2, c⟩ := t
  simp only [] at h1 h2
  refine ⟨acc ++ andConstraints (SVar.common s1 s2 c) (SVar.assign s1 c)
    (SVar.assign s2 c), ?_⟩
  dsimp only
  rw [if_pos ⟨graphNodes_subset_keys ds hclean s1 h1,
    graphNodes_subset_keys ds hclean s2 h2⟩]

/-- C10: both ILP builders read students_data[s]["sex"] for every student
whenever factor_gender is enabled, with no default: model building succeeds
for every dataset whose records all carry the "sex" key (given well-formed
preference lists), and on a concrete input in which one record lacks the
key, both builders raise KeyError instead of skipping the record. -/
theorem C10_gender_key_required :
    buildLessModel ds10 cs10 gr0 true none false none false =
      .error .keyError ∧
    buildPreModel ds10 cs10 gr0 part9 true none false none false =
      .error .keyError ∧
    (∀ (ds : List (String × StudentData)) (cs : List (String × Nat))
      (gr : GenderFracs) (part : String → Nat),
      (∀ sd ∈ ds, (sd.2.extra.lookup "sex").isSome = true) →
      (∀ sd ∈ ds, ∀ p ∈ sd.2.prefs, p ∈ keysOf ds ∧ p ≠ sd.1) →
      (buildLessModel ds cs gr true none false none false).isOk = true ∧
      (buildPreModel ds cs gr part true none false none false).isOk = true) := by
  refine ⟨rfl, rfl, ?_⟩
  intro ds cs gr part hsex hclean
  obtain ⟨pres, hpres⟩ := prefLoop_ok ds cs hclean
  obtain ⟨gcs, hg⟩ := genderConstraints_ok ds cs gr hsex
  obtain ⟨obj, hobj⟩ := preObjectiveTerms_ok ds cs part hclean
  obtain ⟨acs, hacs⟩ := preAndConstraints_ok ds cs part hclean
  constructor
  · unfold buildLessModel
    rw [hpres, hg]
    rfl
  · unfold buildPreModel
    rw [hobj, hacs, hg]
    rfl

/-- Witness for C10 at a concrete dataset in which every record carries the
"sex" key: both builders succeed. -/
theorem C10_witness :
    (buildLessModel ds10ok cs10 gr0 true none false none false).isOk = true ∧
    (buildPreModel ds10ok cs10 gr0 part9 true none false none false).isOk
      = true :=
  C10_gender_key_required.2.2 ds10ok cs10 gr0 part9 (by decide) (by decide)

theorem getLast?_cons_or {α : Type} (a : α) (l : List α) :
    (a :: l).getLast? = l.getLast?.or (some a) := by
  induction l with
  | nil => rfl
  | cons b m ih =>
    rw [List.getLast?_cons_cons]
    cases hm : (b :: m).getLast? with
    | none =>
      exfalso
      have := List.getLast?_isSome (l := b :: m)
      rw [hm] at this
      simp at this
    | some x => rfl

theorem prefLoop_fold_eq (ds : List (String × StudentData)) :
    ∀ (l : List (String × String × String)) (acc : List Constr × Option Affine),
      (∀ t ∈ l, t.2.1 ∈ keysOf ds ∧ t.1 ≠ t.2.1) →
      l.foldlM
        (fun acc t =>
          let (s1, s2, c) := t
          if s2 ∈ keysOf ds then
            if s1 = s2 then Except.error PyErr.keyError
            else
              let cp := commonPrefCount ds s1 s2
              Except.ok (acc.1 ++
                  andConstraints (SVar.common s1 s2 c) (SVar.assign s1 c)
                    (SVar.assign s2 c),
                some (Affine.mk [((cp : ℚ), SVar.common s1 s2 c)] 0))
          else Except.error PyErr.keyError)
        acc =
      .ok (acc.1 ++ l.flatMap (fun t =>
          andConstraints (SVar.common t.1 t.2.1 t.2.2) (SVar.assign t.1 t.2.2)
            (SVar.assign t.2.1 t.2.2)),
        ((l.map (fun t : String × String × String => Affine.mk
          [((commonPrefCount ds t.1 t.2.1 : ℚ),
            SVar.common t.1 t.2.1 t.2.2)] 0)).getLast?).or acc.2) := by
  intro l
  induction l with
  | nil =>
    intro acc hgood
    simp only [List.foldlM_nil, List.flatMap_nil, List.append_nil,
      List.map_nil, List.getLast?_nil, Option.none_or]
    rfl
  | cons hd tl ih =>
    intro acc hgood
    obtain ⟨s1, s2, c⟩ := hd
    have hg := hgood (s1, s2, c) (List.mem_cons_self _ _)
    simp only [] at hg
    rw [List.foldlM_cons]
    dsimp only
    rw [if_pos hg.1, if_neg hg.2]
    have hbind : ∀ (x : List Constr × Option Affine)
        (f : List Constr × Option Affine →
          Except PyErr (List Constr × Option Affine)),
        (Except.ok x >>= f) = f x := fun _ _ => rfl
    rw [hbind]
    rw [ih _ (fun t ht => hgood t (List.mem_cons_of_mem _ ht))]
    rw [List.flatMap_cons, List.map_cons]
    rw [getLast?_cons_or]
    have hsome : ∀ (e : Affine) (o : Option Affine), (some e).or o = some e :=
      fun _ _ => rfl
    simp only [List.append_assoc, Option.or_assoc, hsome]

theorem prefLoop_eq (ds : List (String × StudentData))
    (cs : List (String × Nat))
    (hclean : ∀ sd ∈ ds, ∀ p ∈ sd.2.prefs, p ∈ keysOf ds ∧ p ≠ sd.1) :
    prefLoop ds cs = .ok
      ((prefTriples ds cs).flatMap (fun t =>
          andConstraints (SVar.common t.1 t.2.1 t.2.2) (SVar.assign t.1 t.2.2)
            (SVar.assign t.2.1 t.2.2)),
        ((prefTriples ds cs).map (fun t : String × String × String => Affine.mk
          [((commonPrefCount ds t.1 t.2.1 : ℚ),
            SVar.common t.1 t.2.1 t.2.2)] 0)).getLast?) := by
  unfold prefLoop
  rw [prefLoop_fold_eq ds (prefTriples ds cs) ([], none)
    (fun t ht => prefTriples_mem ds cs hclean ht)]
  simp

theorem buildLess_eq (ds : List (String × StudentData))
    (cs : List (String × Nat)) (gr : GenderFracs)
    (hclean : ∀ sd ∈ ds, ∀ p ∈ sd.2.prefs, p ∈ keysOf ds ∧ p ≠ sd.1) :
    buildLessModel ds cs gr false none false none false = .ok
      { objective := (((prefTriples ds cs).map
            (fun t : String × String × String =>
              Affine.mk [((commonPrefCount ds t.1 t.2.1 : ℚ),
                SVar.common t.1 t.2.1 t.2.2)] 0)).getLast?).getD
          (Affine.mk (fullObjectiveTerms ds cs) 0)
        constraints := assignmentConstraints ds cs ++ capacityConstraints ds cs
          ++ (prefTriples ds cs).flatMap (fun t =>
              andConstraints (SVar.common t.1 t.2.1 t.2.2)
                (SVar.assign t.1 t.2.2) (SVar.assign t.2.1 t.2.2)) } := by
  unfold buildLessModel optionalConstraints
  rw [prefLoop_eq ds cs hclean]
  have hb : ∀ {α β : Type} (x : α) (f : α → Except PyErr β),
      (Except.ok x >>= f) = f x := fun _ _ => rfl
  simp only [hb, Bool.false_eq_true, if_false]
  rw [List.append_nil, List.append_nil, List.append_nil]

theorem prefTriples_mem_iff (ds : List (String × StudentData))
    (cs : List (String × Nat)) (t : String × String × String) :
    t ∈ prefTriples ds cs ↔
      t.1 ∈ keysOf ds ∧ t.2.1 ∈ (lookupD ds t.1).prefs ∧
        t.2.2 ∈ cs.map Prod.fst := by
  unfold prefTriples
  rw [List.mem_flatMap]
  constructor
  · rintro ⟨s1, hs1, h2⟩
    rw [List.mem_flatMap] at h2
    obtain ⟨s2, hs2, h3⟩ := h2
    rw [List.mem_map] at h3
    obtain ⟨c, hc, hceq⟩ := h3
    subst hceq
    exact ⟨hs1, hs2, List.mem_map_of_mem Prod.fst hc⟩
  · rintro ⟨h1, h2, h3⟩
    refine ⟨t.1, h1, ?_⟩
    rw [List.mem_flatMap]
    refine ⟨t.2.1, h2, ?_⟩
    rw [List.mem_map]
    rw [List.mem_map] at h3
    obtain ⟨c, hc, hceq⟩ := h3
    refine ⟨c, hc, ?_⟩
    rw [hceq]

/-- C2 amended: in the full formulation the three AND-linearization
constraints for the pair variable of (s1, s2) and class c are in the model
exactly when s2 occurs in the preference list of student s1 and c is a
class (not for every ordered pair of distinct students), and the maximized
objective is the full-pair sum only until the constraint loop runs: each
loop iteration adds the bare expression coeff·y to the PuLP problem, which
overwrites the objective, so the final objective is the single term of the
last iterated (s1, s2 ∈ prefs(s1), c) triple whenever at least one triple
is iterated, and the full-pair sum otherwise. -/
theorem C2_full_formulation_model (ds : List (String × StudentData))
    (cs : List (String × Nat)) (gr : GenderFracs)
    (hclean : ∀ sd ∈ ds, ∀ p ∈ sd.2.prefs, p ∈ keysOf ds ∧ p ≠ sd.1) :
    ∃ m, buildLessModel ds cs gr false none false none false = .ok m ∧
      (∀ s1 s2 c : String,
        (∀ x ∈ andConstraints (SVar.common s1 s2 c) (SVar.assign s1 c)
            (SVar.assign s2 c), x ∈ m.constraints) ↔
          (s1 ∈ keysOf ds ∧ s2 ∈ (lookupD ds s1).prefs ∧
            c ∈ cs.map Prod.fst)) ∧
      m.objective = (((prefTriples ds cs).map
          (fun t : String × String × String =>
            Affine.mk [((commonPrefCount ds t.1 t.2.1 : ℚ),
              SVar.common t.1 t.2.1 t.2.2)] 0)).getLast?).getD
        (Affine.mk (fullObjectiveTerms ds cs) 0) := by
  refine ⟨_, buildLess_eq ds cs gr hclean, ?_, rfl⟩
  intro s1 s2 c
  constructor
  · intro hall
    have hge := hall (Constr.ge (Affine.ofVar (SVar.common s1 s2 c))
        ⟨[(1, SVar.assign s1 c), (1, SVar.assign s2 c)], -1⟩)
      (by unfold andConstraints
          exact List.mem_cons_of_mem _ (List.mem_cons_of_mem _
            (List.mem_cons_self _ _)))
    rw [List.mem_append] at hge
    rcases hge with h12 | h3
    · rw [List.mem_append] at h12
      rcases h12 with h1 | h2
      · unfold assignmentConstraints at h1
        rw [List.mem_map] at h1
        obtain ⟨s, _, hs⟩ := h1
        simp at hs
      · unfold capacityConstraints at h2
        rw [List.mem_map] at h2
        obtain ⟨cc, _, hcc⟩ := h2
        simp at hcc
    · rw [List.mem_flatMap] at h3
      obtain ⟨t, ht, hx⟩ := h3
      unfold andConstraints at hx
      rw [List.mem_cons, List.mem_cons, List.mem_cons] at hx
      rcases hx with hx | hx | hx | hx
      · simp at hx
      · simp at hx
      · unfold Affine.ofVar at hx
        injection hx with ha hb
        injection ha with hterms hconst
        injection hterms with hhead htail
        have hsnd := congrArg Prod.snd hhead
        simp only [] at hsnd
        injection hsnd with he1 he2 he3
        have hmem := (prefTriples_mem_iff ds cs t).mp ht
        rw [he1, he2, he3]
        exact hmem
      · cases hx
  · rintro ⟨h1, h2, h3⟩
    intro x hx
    rw [List.mem_append]
    right
    rw [List.mem_flatMap]
    exact ⟨(s1, s2, c), (prefTriples_mem_iff ds cs (s1, s2, c)).mpr
      ⟨h1, h2, h3⟩, hx⟩

/-- C2 counterexample: on the concrete dataset ds2 the model the full
builder hands to the solver misses the AND constraint y(x,a,C) ≤ x(x,C)
for the ordered distinct pair (x, a) (x lists nobody), and the objective
was overwritten by the last loop iteration: the coefficient of the pair
variable of (a, b) in the final objective is 0, although the claimed
full-pair objective carries coefficient |prefs(a) ∩ prefs(b)| = 1 for it. -/
theorem C2_counterexample :
    (buildLessModel ds2 cs2 gr0 false none false none false).isOk = true ∧
    Constr.le (Affine.ofVar (SVar.common "x" "a" "C"))
      (Affine.ofVar (SVar.assign "x" "C")) ∉ m2.constraints ∧
    m2.objective.coeff (SVar.common "a" "b" "C") = 0 ∧
    (Affine.mk (fullObjectiveTerms ds2 cs2) 0).coeff
      (SVar.common "a" "b" "C") = 1 := by
  refine ⟨by decide, by decide, by decide, ?_⟩
  have hfil : ((Affine.mk (fullObjectiveTerms ds2 cs2) 0).terms.filter
      (fun t => t.2 = SVar.common "a" "b" "C")) =
      [((1 : ℚ), SVar.common "a" "b" "C")] := by decide
  unfold Affine.coeff
  rw [hfil]
  rw [List.foldl_cons, List.foldl_nil]
  norm_num

/-- Witness for C2: the amended characterization applied to the concrete
dataset ds2, pinning the objective of the produced model m2. -/
theorem C2_witness :
    m2.objective = (((prefTriples ds2 cs2).map
        (fun t : String × String × String =>
          Affine.mk [((commonPrefCount ds2 t.1 t.2.1 : ℚ),
            SVar.common t.1 t.2.1 t.2.2)] 0)).getLast?).getD
      (Affine.mk (fullObjectiveTerms ds2 cs2) 0) := by
  obtain ⟨m, hm, -, hobj⟩ :=
    C2_full_formulation_model ds2 cs2 gr0 (by decide)
  have hm2 : m2 = m := by
    unfold Instances.m2
    rw [hm]
    rfl
  rw [hm2, hobj]

theorem chLt_trans : ∀ {l1 l2 l3 : List Char}, chLt l1 l2 = true →
    chLt l2 l3 = true → chLt l1 l3 = true := by
  intro l1
  induction l1 with
  | nil =>
    intro l2 l3 h12 h23
    cases l2 with
    | nil => simp [chLt] at h12
    | cons b bs =>
      cases l3 with
      | nil => simp [chLt] at h23
      | cons c cs => rfl
  | cons a as ih =>
    intro l2 l3 h12 h23
    cases l2 with
    | nil => simp [chLt] at h12
    | cons b bs =>
      cases l3 with
      | nil => simp [chLt] at h23
      | cons c cs =>
        unfold chLt at h12 h23 ⊢
        by_cases hab : a < b
        · rw [if_pos hab] at h12
          by_cases hbc : b < c
          · rw [if_pos (lt_trans hab hbc)]
          · rw [if_neg hbc] at h23
            by_cases hcb : c < b
            · rw [if_pos hcb] at h23
              exact absurd h23 (by simp)
            · rw [if_neg hcb] at h23
              have hbc2 : b = c := le_antisymm (not_lt.mp hcb) (not_lt.mp hbc)
              rw [if_pos (hbc2 ▸ hab)]
        · rw [if_neg hab] at h12
          by_cases hba : b < a
          · rw [if_pos hba] at h12
            exact absurd h12 (by simp)
          · rw [if_neg hba] at h12
            have hab2 : a = b := le_antisymm (not_lt.mp hba) (not_lt.mp hab)
            by_cases hbc : b < c
            · rw [if_pos hbc] at h23
              rw [if_pos (hab2 ▸ hbc)]
            · rw [if_neg hbc] at h23
              by_cases hcb : c < b
              · rw [if_pos hcb] at h23
                exact absurd h23 (by simp)
              · rw [if_neg hcb] at h23
                have hbc2 : b = c := le_antisymm (not_lt.mp hcb) (not_lt.mp hbc)
                have hac : ¬ a < c := by
                  rw [← hbc2, hab2]
                  exact lt_irrefl b
                have hca : ¬ c < a := by
                  rw [← hbc2, hab2]
                  exact lt_irrefl b
                rw [if_neg hac, if_neg hca]
                exact ih h12 h23

theorem chLt_asymm : ∀ {l1 l2 : List Char}, chLt l1 l2 = true →
    chLt l2 l1 = false := by
  intro l1
  induction l1 with
  | nil =>
    intro l2 h
    cases l2 with
    | nil => simp [chLt] at h
    | cons b bs => rfl
  | cons a as ih =>
    intro l2 h
    cases l2 with
    | nil => simp [chLt] at h
    | cons b bs =>
      unfold chLt at h ⊢
      by_cases hab : a < b
      · rw [if_pos hab] at h
        rw [if_neg (lt_asymm hab), if_pos hab]
      · rw [if_neg hab] at h
        by_cases hba : b < a
        · rw [if_pos hba] at h
          exact absurd h (by simp)
        · rw [if_neg hba] at h
          rw [if_neg hba, if_neg hab]
          exact ih h

theorem chLt_conn : ∀ {l1 l2 : List Char}, chLt l1 l2 = false →
    chLt l2 l1 = false → l1 = l2 := by
  intro l1
  induction l1 with
  | nil =>
    intro l2 h12 h21
    cases l2 with
    | nil => rfl
    | cons b bs => simp [chLt] at h12
  | cons a as ih =>
    intro l2 h12 h21
    cases l2 with
    | nil => simp [chLt] at h21
    | cons b bs =>
      unfold chLt at h12 h21
      by_cases hab : a < b
      · rw [if_pos hab] at h12
        exact absurd h12 (by simp)
      · rw [if_neg hab] at h12
        by_cases hba : b < a
        · rw [if_pos hba] at h21
          exact absurd h21 (by simp)
        · simp only [if_neg hab, if_neg hba] at h12 h21
          have hab2 : a = b := le_antisymm (not_lt.mp hba) (not_lt.mp hab)
          rw [hab2, ih h12 h21]

theorem keyLE_total (preferred : List String) (a b : String) :
    keyLE preferred a b = true ∨ keyLE preferred b a = true := by
  unfold keyLE
  by_cases he : notPref preferred a = notPref preferred b
  · rw [if_pos he, if_pos he.symm]
    by_cases hba : chLt b.data a.data
    · right
      have := chLt_asymm hba
      rw [this]
      rfl
    · left
      rw [Bool.not_eq_true] at hba
      rw [hba]
      rfl
  · rw [if_neg he, if_neg (fun h => he h.symm)]
    cases hb : notPref preferred b
    · cases ha : notPref preferred a
      · exact absurd (ha.trans hb.symm) he
      · right
        rfl
    · left
      rfl

theorem keyLE_trans (preferred : List String) (a b c : String)
    (hab : keyLE preferred a b = true) (hbc : keyLE preferred b c = true) :
    keyLE preferred a c = true := by
  unfold keyLE at hab hbc ⊢
  by_cases h1 : notPref preferred a = notPref preferred b
  · rw [if_pos h1] at hab
    by_cases h2 : notPref preferred b = notPref preferred c
    · rw [if_pos h2] at hbc
      rw [if_pos (h1.trans h2)]
      rw [Bool.not_eq_true'] at hab hbc ⊢
      by_cases hca : chLt c.data a.data = true
      · exfalso
        cases hbc2 : chLt b.data c.data with
        | true =>
          have hba := chLt_trans hbc2 hca
          rw [hba] at hab
          exact absurd hab (by simp)
        | false =>
          have heq := chLt_conn hbc2 hbc
          rw [← heq] at hca
          rw [hca] at hab
          exact absurd hab (by simp)
      · exact Bool.eq_false_iff.mpr hca
    · rw [if_neg h2] at hbc
      rw [if_neg (fun h => h2 (h1.symm.trans h))]
      exact hbc
  · rw [if_neg h1] at hab
    by_cases h2 : notPref preferred b = notPref preferred c
    · rw [if_pos h2] at hbc
      rw [if_neg (fun h => h1 (h.trans h2.symm))]
      rw [← h2]
      exact hab
    · rw [if_neg h2] at hbc
      have ha : notPref preferred a = false := by
        cases h : notPref preferred a
        · rfl
        · exact absurd (h.trans hab.symm) h1
      rw [if_neg (by rw [ha, hbc]; simp)]
      exact hbc

theorem insertLE_perm (le : String → String → Bool) (x : String)
    (l : List String) : (insertLE le x l).Perm (x :: l) := by
  induction l with
  | nil => exact List.Perm.refl _
  | cons y ys ih =>
    unfold insertLE
    by_cases h : le x y
    · rw [if_pos h]
    · rw [if_neg h]
      exact (ih.cons y).trans (List.Perm.swap x y ys)

theorem sortLE_perm (le : String → String → Bool) (l : List String) :
    (sortLE le l).Perm l := by
  induction l with
  | nil => exact List.Perm.refl _
  | cons x xs ih =>
    unfold sortLE
    exact (insertLE_perm le x (sortLE le xs)).trans (ih.cons x)

theorem insertLE_pairwise (le : String → String → Bool)
    (htot : ∀ a b, le a b = true ∨ le b a = true)
    (htr : ∀ a b c, le a b = true → le b c = true → le a c = true)
    (x : String) (l : List String)
    (hl : l.Pairwise (fun a b => le a b = true)) :
    (insertLE le x l).Pairwise (fun a b => le a b = true) := by
  induction l with
  | nil => simp [insertLE]
  | cons y ys ih =>
    rw [List.pairwise_cons] at hl
    unfold insertLE
    by_cases h : le x y
    · rw [if_pos h]
      rw [List.pairwise_cons]
      refine ⟨?_, List.pairwise_cons.mpr hl⟩
      intro z hz
      rcases List.mem_cons.mp hz with hzy | hz2
      · rw [hzy]
        exact h
      · exact htr x y z h (hl.1 z hz2)
    · rw [if_neg h]
      have hyx : le y x = true := (htot x y).resolve_left h
      rw [List.pairwise_cons]
      constructor
      · intro z hz
        have hmem := (insertLE_perm le x ys).mem_iff.mp hz
        rcases List.mem_cons.mp hmem with hzx | hz2
        · rw [hzx]
          exact hyx
        · exact hl.1 z hz2
      · exact ih hl.2

theorem sortLE_pairwise (le : String → String → Bool)
    (htot : ∀ a b, le a b = true ∨ le b a = true)
    (htr : ∀ a b c, le a b = true → le b c = true → le a c = true)
    (l : List String) :
    (sortLE le l).Pairwise (fun a b => le a b = true) := by
  induction l with
  | nil => simp [sortLE]
  | cons x xs ih =>
    unfold sortLE
    exact insertLE_pairwise le htot htr x (sortLE le xs) ih

/-- C6 counterexample: with time_slots given as 18:00 before 17:00, both
slots free and neither preferred, the source sorts the suggestions by the
slot string and returns 17:00 first, while the claim's input-order ranking
would keep 18:00 first. -/
theorem C6_counterexample :
    suggest_alternative_timeslots_for_meeting "P" "T" sched6 slots6 [] =
      ["17:00", "18:00"] ∧
    suggestSpecOrdered "P" "T" sched6 slots6 [] = ["18:00", "17:00"] ∧
    suggest_alternative_timeslots_for_meeting "P" "T" sched6 slots6 [] ≠
      suggestSpecOrdered "P" "T" sched6 slots6 [] := by
  refine ⟨by decide, by decide, by decide⟩

/-- C6 amended: the suggestion list holds exactly the slots of time_slots
occupied neither by another scheduled meeting of the parent nor by another
scheduled meeting of the teacher (the meeting's own slot not excluded),
sorted by the key (slot not preferred, slot label) with the code-point
order on the label itself, not the time_slots input order. -/
theorem C6_suggestion_characterization (parent teacher : String)
    (schedule : Sched) (time_slots preferred : List String) :
    (suggest_alternative_timeslots_for_meeting parent teacher schedule
        time_slots preferred).Perm
      (availableSlots schedule parent teacher time_slots) ∧
    (suggest_alternative_timeslots_for_meeting parent teacher schedule
        time_slots preferred).Pairwise
      (fun a b => keyLE preferred a b = true) ∧
    (∀ s : String,
      s ∈ suggest_alternative_timeslots_for_meeting parent teacher schedule
          time_slots preferred ↔
        (s ∈ time_slots ∧ s ∉ teacherBooked schedule parent teacher ∧
          s ∉ parentBooked schedule parent teacher)) := by
  unfold suggest_alternative_timeslots_for_meeting
  refine ⟨sortLE_perm _ _, sortLE_pairwise _ (keyLE_total preferred)
    (keyLE_trans preferred) _, ?_⟩
  intro s
  rw [(sortLE_perm (keyLE preferred)
    (availableSlots schedule parent teacher time_slots)).mem_iff]
  unfold availableSlots
  rw [List.mem_filter]
  constructor
  · rintro ⟨h1, h2⟩
    rw [decide_eq_true_eq] at h2
    exact ⟨h1, h2.1, h2.2⟩
  · rintro ⟨h1, h2, h3⟩
    exact ⟨h1, by rw [decide_eq_true_eq]; exact ⟨h2, h3⟩⟩

theorem sum_fnode {P T R M : Type} [Fintype P] [Fintype T] [Fintype R]
    [AddCommMonoid M] (g : FNode P T R → M) :
    ∑ v, g v = g .src + g .snk + (∑ x : P × T, g (.meet x.1 x.2))
      + (∑ x : P × T × R, g (.candA x.1 x.2.1 x.2.2))
      + (∑ x : P × T × R, g (.candB x.1 x.2.1 x.2.2))
      + (∑ x : P × R, g (.pIn x.1 x.2)) + (∑ x : P × R, g (.pOut x.1 x.2))
      + (∑ x : T × R, g (.tIn x.1 x.2)) + (∑ x : T × R, g (.tOut x.1 x.2)) := by
  have h := Equiv.sum_comp (fnodeEquiv P T R).symm g
  rw [← h]
  rw [Fintype.sum_sum_type, Fintype.sum_sum_type, Fintype.sum_sum_type,
    Fintype.sum_sum_type, Fintype.sum_sum_type, Fintype.sum_sum_type,
    Fintype.sum_sum_type, Fintype.sum_sum_type]
  rw [Fintype.sum_unique, Fintype.sum_unique]
  have h3 : ∀ x : P × T,
      g ((fnodeEquiv P T R).symm (Sum.inr (Sum.inr (Sum.inl x)))) =
        g (.meet x.1 x.2) := by
    intro x
    obtain ⟨p, t⟩ := x
    rfl
  have h4 : ∀ x : P × T × R,
      g ((fnodeEquiv P T R).symm
          (Sum.inr (Sum.inr (Sum.inr (Sum.inl x))))) =
        g (.candA x.1 x.2.1 x.2.2) := by
    intro x
    obtain ⟨p, t, r⟩ := x
    rfl
  have h5 : ∀ x : P × T × R,
      g ((fnodeEquiv P T R).symm
          (Sum.inr (Sum.inr (Sum.inr (Sum.inr (Sum.inl x)))))) =
        g (.candB x.1 x.2.1 x.2.2) := by
    intro x
    obtain ⟨p, t, r⟩ := x
    rfl
  have h6 : ∀ x : P × R,
      g ((fnodeEquiv P T R).symm
          (Sum.inr (Sum.inr (Sum.inr (Sum.inr (Sum.inr (Sum.inl x))))))) =
        g (.pIn x.1 x.2) := by
    intro x
    obtain ⟨p, r⟩ := x
    rfl
  have h7 : ∀ x : P × R,
      g ((fnodeEquiv P T R).symm
          (Sum.inr (Sum.inr (Sum.inr (Sum.inr (Sum.inr (Sum.inr
            (Sum.inl x)))))))) = g (.pOut x.1 x.2) := by
    intro x
    obtain ⟨p, r⟩ := x
    rfl
  have h8 : ∀ x : T × R,
      g ((fnodeEquiv P T R).symm
          (Sum.inr (Sum.inr (Sum.inr (Sum.inr (Sum.inr (Sum.inr (Sum.inr
            (Sum.inl x))))))))) = g (.tIn x.1 x.2) := by
    intro x
    obtain ⟨t, r⟩ := x
    rfl
  have h9 : ∀ x : T × R,
      g ((fnodeEquiv P T R).symm
          (Sum.inr (Sum.inr (Sum.inr (Sum.inr (Sum.inr (Sum.inr (Sum.inr
            (Sum.inr x))))))))) = g (.tOut x.1 x.2) := by
    intro x
    obtain ⟨t, r⟩ := x
    rfl
  rw [Finset.sum_congr rfl (fun x _ => h3 x),
    Finset.sum_congr rfl (fun x _ => h4 x),
    Finset.sum_congr rfl (fun x _ => h5 x),
    Finset.sum_congr rfl (fun x _ => h6 x),
    Finset.sum_congr rfl (fun x _ => h7 x),
    Finset.sum_congr rfl (fun x _ => h8 x),
    Finset.sum_congr rfl (fun x _ => h9 x)]
  show g (.src) + (g (.snk) + (_ + (_ + (_ + (_ + (_ + (_ + _))))))) = _
  abel

theorem flow_zero_of_cap {P T R : Type}
    {κ f : FNode P T R → FNode P T R → ℕ} (hle : ∀ u v, f u v ≤ κ u v)
    {u v : FNode P T R} (h : κ u v = 0) : f u v = 0 :=
  Nat.le_zero.mp (h ▸ hle u v)

theorem outflow_single {P T R : Type} [Fintype P] [Fintype T] [Fintype R]
    {κ f : FNode P T R → FNode P T R → ℕ} (hle : ∀ u v, f u v ≤ κ u v)
    {u v0 : FNode P T R} (hsupp : ∀ v, 0 < κ u v → v = v0) :
    outflow f u = f u v0 := by
  unfold outflow
  apply Fintype.sum_eq_single
  intro b hb
  apply flow_zero_of_cap hle
  by_contra hz
  exact hb (hsupp b (Nat.pos_of_ne_zero hz))

theorem inflow_single {P T R : Type} [Fintype P] [Fintype T] [Fintype R]
    {κ f : FNode P T R → FNode P T R → ℕ} (hle : ∀ u v, f u v ≤ κ u v)
    {v0 u0 : FNode P T R} (hsupp : ∀ u, 0 < κ u v0 → u = u0) :
    inflow f v0 = f u0 v0 := by
  unfold inflow
  apply Fintype.sum_eq_single
  intro b hb
  apply flow_zero_of_cap hle
  by_contra hz
  exact hb (hsupp b (Nat.pos_of_ne_zero hz))

theorem single_le_inflow {P T R : Type} [Fintype P] [Fintype T] [Fintype R]
    (f : FNode P T R → FNode P T R → ℕ) (u v : FNode P T R) :
    f u v ≤ inflow f v := by
  unfold inflow
  exact Finset.single_le_sum
    (fun (x : FNode P T R) (_ : x ∈ Finset.univ) => Nat.zero_le (f x v))
    (Finset.mem_univ u)

theorem pair_le_inflow {P T R : Type} [DecidableEq P] [DecidableEq T]
    [DecidableEq R] [Fintype P] [Fintype T] [Fintype R]
    (f : FNode P T R → FNode P T R → ℕ) {u1 u2 : FNode P T R} (h : u1 ≠ u2)
    (v : FNode P T R) : f u1 v + f u2 v ≤ inflow f v := by
  unfold inflow
  have hp : ∑ x ∈ ({u1, u2} : Finset (FNode P T R)), f x v = f u1 v + f u2 v :=
    Finset.sum_pair h
  rw [← hp]
  exact Finset.sum_le_sum_of_subset (fun x _ => Finset.mem_univ x)

theorem capGadget_candA_support {P T R : Type} [DecidableEq P] [DecidableEq T]
    [DecidableEq R] (I : ConfSched.SchedInput P T R) (p : P) (t : T) (r : R) :
    ∀ v, 0 < capGadget I (FNode.candA p t r) v → v = FNode.pIn p r := by
  intro v hv
  cases v <;> simp only [capGadget] at hv <;> try omega
  case pIn q r2 =>
  by_cases hc : p = q ∧ r = r2 ∧ (p, t) ∈ meetingRequests I ∧ r ∈ I.time_slots
  · rw [hc.1, hc.2.1]
  · rw [if_neg hc] at hv
    omega

theorem capGadget_pIn_support {P T R : Type} [DecidableEq P] [DecidableEq T]
    [DecidableEq R] (I : ConfSched.SchedInput P T R) (p : P) (r : R) :
    ∀ v, 0 < capGadget I (FNode.pIn p r) v → v = FNode.pOut p r := by
  intro v hv
  cases v <;> simp only [capGadget] at hv <;> try omega
  case pOut q r2 =>
  by_cases hc : p = q ∧ r = r2 ∧ parentReq I p = true ∧ r ∈ I.time_slots
  · rw [hc.1, hc.2.1]
  · rw [if_neg hc] at hv
    omega

theorem capGadget_pIn_le_one {P T R : Type} [DecidableEq P] [DecidableEq T]
    [DecidableEq R] (I : ConfSched.SchedInput P T R) (p : P) (r : R) :
    capGadget I (FNode.pIn p r) (FNode.pOut p r) ≤ 1 := by
  simp only [capGadget]
  split <;> omega

theorem capSugg_candA_support {P T R : Type} [DecidableEq P] [DecidableEq T]
    [DecidableEq R] (I : ConfSched.SchedInput P T R) (p : P) (t : T) (r : R) :
    ∀ v, 0 < capSugg I (FNode.candA p t r) v → v = FNode.pIn p r := by
  intro v hv
  cases v <;> simp only [capSugg] at hv <;> try omega
  case pIn q r2 =>
  by_cases hc : p = q ∧ r = r2 ∧ (p, t) ∈ meetingRequests I ∧ r ∈ I.time_slots
  · rw [hc.1, hc.2.1]
  · rw [if_neg hc] at hv
    omega

theorem capSugg_pIn_support {P T R : Type} [DecidableEq P] [DecidableEq T]
    [DecidableEq R] (I : ConfSched.SchedInput P T R) (p : P) (r : R) :
    ∀ v, 0 < capSugg I (FNode.pIn p r) v → v = FNode.pOut p r := by
  intro v hv
  cases v <;> simp only [capSugg] at hv <;> try omega
  case pOut q r2 =>
  by_cases hc : p = q ∧ r = r2 ∧ parentReq I p = true ∧ r ∈ I.time_slots
  · rw [hc.1, hc.2.1]
  · rw [if_neg hc] at hv
    omega

theorem capSugg_pIn_le_one {P T R : Type} [DecidableEq P] [DecidableEq T]
    [DecidableEq R] (I : ConfSched.SchedInput P T R) (p : P) (r : R) :
    capSugg I (FNode.pIn p r) (FNode.pOut p r) ≤ 1 := by
  simp only [capSugg]
  split <;> omega

theorem parent_inj_generic {P T R : Type} [DecidableEq P] [DecidableEq T]
    [DecidableEq R] [Fintype P] [Fintype T] [Fintype R]
    (I : ConfSched.SchedInput P T R)
    (κ f : FNode P T R → FNode P T R → ℕ)
    (hle : ∀ u v, f u v ≤ κ u v)
    (hcons : ∀ v, v ≠ FNode.src → v ≠ FNode.snk → inflow f v = outflow f v)
    (hA : ∀ (p : P) (t : T) (r : R) v, 0 < κ (FNode.candA p t r) v →
      v = FNode.pIn p r)
    (hPin : ∀ (p : P) (r : R) v, 0 < κ (FNode.pIn p r) v → v = FNode.pOut p r)
    (hPcap : ∀ (p : P) (r : R), κ (FNode.pIn p r) (FNode.pOut p r) ≤ 1) :
    parentInjective I f := by
  intro p t1 t2 r h1 h2
  by_contra hne
  have hf1 : 0 < f (FNode.meet p t1) (FNode.candA p t1 r) := by
    have := List.find?_some h1
    simpa using this
  have hf2 : 0 < f (FNode.meet p t2) (FNode.candA p t2 r) := by
    have := List.find?_some h2
    simpa using this
  have key : ∀ t : T, 0 < f (FNode.meet p t) (FNode.candA p t r) →
      1 ≤ f (FNode.candA p t r) (FNode.pIn p r) := by
    intro t hf
    have hin : 1 ≤ inflow f (FNode.candA p t r) :=
      le_trans hf (single_le_inflow f _ _)
    have hco := hcons (FNode.candA p t r) (by simp) (by simp)
    have hout := outflow_single hle (hA p t r)
    rw [hco, hout] at hin
    exact hin
  have hk1 := key t1 hf1
  have hk2 := key t2 hf2
  have hne2 : (FNode.candA p t1 r : FNode P T R) ≠ FNode.candA p t2 r := by
    intro he
    injection he with e1 e2 e3
    exact hne e2
  have hp := pair_le_inflow f hne2 (FNode.pIn p r)
  have hco := hcons (FNode.pIn p r) (by simp) (by simp)
  have hout := outflow_single hle (hPin p r)
  have hcap := hPcap p r
  have hlep := hle (FNode.pIn p r) (FNode.pOut p r)
  omega

/-- C3 amended: in both scheduler variants every feasible flow decodes to a
schedule in which no parent holds two meetings in one slot: the parent
gadget's unit internal edge enforces it.  The analogous teacher claim fails:
the network lets a request's unit leave its parent gadget through a
different teacher's chain, and the accompanying counterexample exhibits a
feasible zero-cost (hence cost-minimal) flow whose decoded schedule books
one teacher twice in the same slot. -/
theorem C3_parent_slot_injective {P T R : Type} [DecidableEq P] [DecidableEq T]
    [DecidableEq R] [Fintype P] [Fintype T] [Fintype R]
    (I : ConfSched.SchedInput P T R) (f : FNode P T R → FNode P T R → ℕ)
    (Rtot : ℕ) :
    (IsFlow (capGadget I) Rtot f → parentInjective I f) ∧
    (IsFlow (capSugg I) Rtot f → parentInjective I f) := by
  constructor
  · intro hf
    exact parent_inj_generic I (capGadget I) f hf.1 hf.2.1
      (capGadget_candA_support I) (capGadget_pIn_support I)
      (capGadget_pIn_le_one I)
  · intro hf
    exact parent_inj_generic I (capSugg I) f hf.1 hf.2.1
      (capSugg_candA_support I) (capSugg_pIn_support I)
      (capSugg_pIn_le_one I)

set_option maxHeartbeats 2000000 in
theorem f3_isFlow : IsFlow (capSugg I3) 3 f3 := by
  unfold IsFlow inflow outflow
  decide

theorem cost_zero_of_weights {P T R : Type} [Fintype P] [Fintype T] [Fintype R]
    (w : FNode P T R → FNode P T R → ℤ) (f : FNode P T R → FNode P T R → ℕ)
    (hw : ∀ u v, w u v = 0) : flowCost w f = 0 := by
  unfold flowCost
  simp [hw]

set_option maxHeartbeats 1000000 in
theorem wSugg_I3_zero : ∀ u v, wSugg I3 10 u v = 0 := by decide

/-- Witness for C3: the crossing flow f3 on the concrete instance I3 is a
feasible flow of the suggestions variant, and the theorem yields that its
decoded schedule never double-books a parent. -/
theorem C3_witness : parentInjective I3 f3 :=
  (C3_parent_slot_injective I3 f3 3).2 f3_isFlow

/-- C3 counterexample: the crossing flow f3 on I3 is feasible and
cost-minimal (every edge weight of this instance is 0, so every feasible
flow costs 0), yet its decoded schedule assigns both the request of
parent 0 with teacher 0 and the request of parent 1 with teacher 0 to
slot 0: the decoded mapping is not injective on (teacher, slot) pairs. -/
theorem C3_counterexample :
    IsMinCostFlow (capSugg I3) (wSugg I3 10) 3 f3 ∧
    decodeSlot I3 f3 0 0 = some 0 ∧
    decodeSlot I3 f3 1 0 = some 0 ∧
    ¬ teacherInjective I3 f3 := by
  refine ⟨⟨f3_isFlow, ?_⟩, by decide, by decide, ?_⟩
  · intro g hg
    rw [cost_zero_of_weights (wSugg I3 10) f3 wSugg_I3_zero,
      cost_zero_of_weights (wSugg I3 10) g wSugg_I3_zero]
  · intro h
    have := h 0 1 0 0 (by decide) (by decide)
    exact absurd this (by decide)

theorem sum_eq_card_forall_one {α : Type} [DecidableEq α] (s : Finset α) (g : α → ℕ)
    (hle : ∀ x ∈ s, g x ≤ 1) (hsum : ∑ x ∈ s, g x = s.card) :
    ∀ x ∈ s, g x = 1 := by
  intro x hx
  by_contra hne
  have hx0 : g x = 0 := by
    have := hle x hx
    omega
  have hsplit : g x + ∑ y ∈ s.erase x, g y = ∑ y ∈ s, g y :=
    Finset.add_sum_erase s g hx
  have hbound : ∑ y ∈ s.erase x, g y ≤ (s.erase x).card * 1 := by
    rw [← smul_eq_mul]
    exact Finset.sum_le_card_nsmul _ _ 1 (fun y hy =>
      hle y (Finset.mem_of_mem_erase hy))
  have hcard : (s.erase x).card = s.card - 1 := Finset.card_erase_of_mem hx
  have hpos : 1 ≤ s.card := Finset.card_pos.mpr ⟨x, hx⟩
  omega

theorem sum_nat_eq_one {α : Type} [Fintype α] [DecidableEq α] (g : α → ℕ)
    (hsum : ∑ x : α, g x = 1) :
    ∃ x0, g x0 = 1 ∧ ∀ x, x ≠ x0 → g x = 0 := by
  have hex : ∃ x0, 0 < g x0 := by
    by_contra hall
    push_neg at hall
    have : ∑ x : α, g x = 0 := Finset.sum_eq_zero (fun x _ => by
      have := hall x
      omega)
    omega
  obtain ⟨x0, hx0⟩ := hex
  have hle1 : g x0 ≤ 1 := by
    rw [← hsum]
    exact Finset.single_le_sum (fun x _ => Nat.zero_le (g x))
      (Finset.mem_univ x0)
  have hone : g x0 = 1 := by omega
  refine ⟨x0, hone, ?_⟩
  intro x hx
  have hsplit : g x0 + ∑ y ∈ Finset.univ.erase x0, g y = ∑ y : α, g y :=
    Finset.add_sum_erase Finset.univ g (Finset.mem_univ x0)
  have hz : ∑ y ∈ Finset.univ.erase x0, g y = 0 := by omega
  rw [Finset.sum_eq_zero_iff] at hz
  exact hz x (Finset.mem_erase.mpr ⟨hx, Finset.mem_univ x⟩)

theorem find?_unique {α : Type} (l : List α) (p : α → Bool) (x : α)
    (hx : x ∈ l) (hpx : p x = true) (huniq : ∀ y, p y = true → y = x) :
    l.find? p = some x := by
  induction l with
  | nil => cases hx
  | cons hd tl ih =>
    by_cases hp : p hd = true
    · rw [List.find?_cons_of_pos _ hp, huniq hd hp]
    · rw [List.find?_cons_of_neg _ hp]
      rcases List.mem_cons.mp hx with he | hm
      · rw [← he] at hp
        exact absurd hpx hp
      · exact ih hm

section C5Dev

variable {P T R : Type} [DecidableEq P] [DecidableEq T] [DecidableEq R]
variable [Fintype P] [Fintype T] [Fintype R]

theorem capGadget_src_in_zero (I : SchedInput P T R) :
    ∀ u : FNode P T R, capGadget I u FNode.src = 0 := by
  intro u
  cases u <;> rfl

theorem gadget_inflow_src_zero (I : SchedInput P T R)
    {f : FNode P T R → FNode P T R → ℕ}
    (hle : ∀ u v, f u v ≤ capGadget I u v) : inflow f FNode.src = 0 := by
  unfold inflow
  exact Finset.sum_eq_zero
    (fun u _ => flow_zero_of_cap hle (capGadget_src_in_zero I u))

theorem outflow_src_eq (I : SchedInput P T R)
    {f : FNode P T R → FNode P T R → ℕ}
    (hle : ∀ u v, f u v ≤ capGadget I u v) :
    outflow f FNode.src = ∑ x : P × T, f FNode.src (FNode.meet x.1 x.2) := by
  unfold outflow
  rw [sum_fnode (fun v => f FNode.src v)]
  have h1 : f FNode.src FNode.src = 0 := flow_zero_of_cap hle rfl
  have h2 : f FNode.src FNode.snk = 0 := flow_zero_of_cap hle rfl
  have h4 : (∑ x : P × T × R, f FNode.src (FNode.candA x.1 x.2.1 x.2.2)) = 0 :=
    Finset.sum_eq_zero (fun x _ => flow_zero_of_cap hle rfl)
  have h5 : (∑ x : P × T × R, f FNode.src (FNode.candB x.1 x.2.1 x.2.2)) = 0 :=
    Finset.sum_eq_zero (fun x _ => flow_zero_of_cap hle rfl)
  have h6 : (∑ x : P × R, f FNode.src (FNode.pIn x.1 x.2)) = 0 :=
    Finset.sum_eq_zero (fun x _ => flow_zero_of_cap hle rfl)
  have h7 : (∑ x : P × R, f FNode.src (FNode.pOut x.1 x.2)) = 0 :=
    Finset.sum_eq_zero (fun x _ => flow_zero_of_cap hle rfl)
  have h8 : (∑ x : T × R, f FNode.src (FNode.tIn x.1 x.2)) = 0 :=
    Finset.sum_eq_zero (fun x _ => flow_zero_of_cap hle rfl)
  have h9 : (∑ x : T × R, f FNode.src (FNode.tOut x.1 x.2)) = 0 :=
    Finset.sum_eq_zero (fun x _ => flow_zero_of_cap hle rfl)
  rw [h1, h2, h4, h5, h6, h7, h8, h9]
  omega

theorem f_src_meet_zero (I : SchedInput P T R)
    {f : FNode P T R → FNode P T R → ℕ}
    (hle : ∀ u v, f u v ≤ capGadget I u v) (pt : P × T)
    (h : pt ∉ meetingRequests I) : f FNode.src (FNode.meet pt.1 pt.2) = 0 := by
  apply flow_zero_of_cap hle
  show (if (pt.1, pt.2) ∈ meetingRequests I then 1 else 0) = 0
  rw [Prod.mk.eta, if_neg h]

theorem src_edge_one (I : SchedInput P T R)
    {f : FNode P T R → FNode P T R → ℕ}
    (hf : IsFlow (capGadget I) (meetingRequests I).length f)
    (hnd : (meetingRequests I).Nodup) :
    ∀ pt ∈ meetingRequests I, f FNode.src (FNode.meet pt.1 pt.2) = 1 := by
  have hle := hf.1
  have hsrc : outflow f FNode.src = (meetingRequests I).length := by
    have h0 : inflow f FNode.src = 0 := gadget_inflow_src_zero I hle
    have h1 := hf.2.2.1
    omega
  have hsum : ∑ x : P × T, f FNode.src (FNode.meet x.1 x.2)
      = (meetingRequests I).length := by
    rw [← outflow_src_eq I hle]
    exact hsrc
  have hrestr : ∑ x ∈ (meetingRequests I).toFinset,
      f FNode.src (FNode.meet x.1 x.2)
      = ∑ x : P × T, f FNode.src (FNode.meet x.1 x.2) :=
    Finset.sum_subset (Finset.subset_univ _)
      (fun x _ hx => f_src_meet_zero I hle x (fun hm => hx (List.mem_toFinset.mpr hm)))
  have hcard : (meetingRequests I).toFinset.card = (meetingRequests I).length :=
    List.toFinset_card_of_nodup hnd
  have hall := sum_eq_card_forall_one (meetingRequests I).toFinset
    (fun x => f FNode.src (FNode.meet x.1 x.2))
    (fun x _ => by
      refine le_trans (hle FNode.src (FNode.meet x.1 x.2)) ?_
      show (if (x.1, x.2) ∈ meetingRequests I then 1 else 0) ≤ 1
      split <;> omega)
    (by rw [hrestr, hsum, hcard])
  intro pt hpt
  exact hall pt (List.mem_toFinset.mpr hpt)

theorem capGadget_into_meet (I : SchedInput P T R) (p : P) (t : T) :
    ∀ u, 0 < capGadget I u (FNode.meet p t) → u = FNode.src := by
  intro u hv
  cases u <;> simp only [capGadget] at hv <;> try omega
  rfl

theorem meet_inflow_one (I : SchedInput P T R)
    {f : FNode P T R → FNode P T R → ℕ}
    (hf : IsFlow (capGadget I) (meetingRequests I).length f)
    (hnd : (meetingRequests I).Nodup) (pt : P × T)
    (hpt : pt ∈ meetingRequests I) : inflow f (FNode.meet pt.1 pt.2) = 1 := by
  rw [inflow_single hf.1 (capGadget_into_meet I pt.1 pt.2)]
  exact src_edge_one I hf hnd pt hpt

theorem candA_group_eq (I : SchedInput P T R)
    {f : FNode P T R → FNode P T R → ℕ}
    (hle : ∀ u v, f u v ≤ capGadget I u v) (p : P) (t : T) :
    (∑ x : P × T × R, f (FNode.meet p t) (FNode.candA x.1 x.2.1 x.2.2))
      = ∑ r : R, f (FNode.meet p t) (FNode.candA p t r) := by
  rw [Fintype.sum_prod_type]
  rw [Fintype.sum_eq_single p (fun q hq => Finset.sum_eq_zero (fun y _ =>
    flow_zero_of_cap hle (by
      show (if p = q ∧ t = y.1 ∧ (p, t) ∈ meetingRequests I ∧ y.2 ∈ I.time_slots
        then 1 else 0) = 0
      rw [if_neg (fun hc => hq hc.1.symm)])))]
  rw [Fintype.sum_prod_type]
  rw [Fintype.sum_eq_single t (fun u hu => Finset.sum_eq_zero (fun r _ =>
    flow_zero_of_cap hle (by
      show (if p = p ∧ t = u ∧ (p, t) ∈ meetingRequests I ∧ r ∈ I.time_slots
        then 1 else 0) = 0
      rw [if_neg (fun hc => hu hc.2.1.symm)])))]

theorem outflow_meet_eq (I : SchedInput P T R)
    {f : FNode P T R → FNode P T R → ℕ}
    (hle : ∀ u v, f u v ≤ capGadget I u v) (p : P) (t : T) :
    outflow f (FNode.meet p t)
      = (∑ r : R, f (FNode.meet p t) (FNode.candA p t r))
        + f (FNode.meet p t) FNode.snk := by
  unfold outflow
  rw [sum_fnode (fun v => f (FNode.meet p t) v)]
  have h1 : f (FNode.meet p t) FNode.src = 0 := flow_zero_of_cap hle rfl
  have h3 : (∑ x : P × T, f (FNode.meet p t) (FNode.meet x.1 x.2)) = 0 :=
    Finset.sum_eq_zero (fun x _ => flow_zero_of_cap hle rfl)
  have h5 : (∑ x : P × T × R, f (FNode.meet p t) (FNode.candB x.1 x.2.1 x.2.2)) = 0 :=
    Finset.sum_eq_zero (fun x _ => flow_zero_of_cap hle rfl)
  have h6 : (∑ x : P × R, f (FNode.meet p t) (FNode.pIn x.1 x.2)) = 0 :=
    Finset.sum_eq_zero (fun x _ => flow_zero_of_cap hle rfl)
  have h7 : (∑ x : P × R, f (FNode.meet p t) (FNode.pOut x.1 x.2)) = 0 :=
    Finset.sum_eq_zero (fun x _ => flow_zero_of_cap hle rfl)
  have h8 : (∑ x : T × R, f (FNode.meet p t) (FNode.tIn x.1 x.2)) = 0 :=
    Finset.sum_eq_zero (fun x _ => flow_zero_of_cap hle rfl)
  have h9 : (∑ x : T × R, f (FNode.meet p t) (FNode.tOut x.1 x.2)) = 0 :=
    Finset.sum_eq_zero (fun x _ => flow_zero_of_cap hle rfl)
  rw [h1, h3, h5, h6, h7, h8, h9, candA_group_eq I hle p t]
  omega

theorem meet_dichotomy (I : SchedInput P T R)
    {f : FNode P T R → FNode P T R → ℕ}
    (hf : IsFlow (capGadget I) (meetingRequests I).length f)
    (hnd : (meetingRequests I).Nodup) (pt : P × T)
    (hpt : pt ∈ meetingRequests I) :
    (∑ r : R, f (FNode.meet pt.1 pt.2) (FNode.candA pt.1 pt.2 r))
      + f (FNode.meet pt.1 pt.2) FNode.snk = 1 := by
  have hcons := hf.2.1 (FNode.meet pt.1 pt.2)
    (fun h => FNode.noConfusion h) (fun h => FNode.noConfusion h)
  rw [meet_inflow_one I hf hnd pt hpt, outflow_meet_eq I hf.1 pt.1 pt.2] at hcons
  exact hcons.symm

theorem f_meet_candA_zero (I : SchedInput P T R)
    {f : FNode P T R → FNode P T R → ℕ}
    (hle : ∀ u v, f u v ≤ capGadget I u v) (p : P) (t : T)
    (h : (p, t) ∉ meetingRequests I) (r : R) :
    f (FNode.meet p t) (FNode.candA p t r) = 0 := by
  apply flow_zero_of_cap hle
  show (if p = p ∧ t = t ∧ (p, t) ∈ meetingRequests I ∧ r ∈ I.time_slots
    then 1 else 0) = 0
  rw [if_neg (fun hc => h hc.2.2.1)]

theorem f_meet_snk_zero (I : SchedInput P T R)
    {f : FNode P T R → FNode P T R → ℕ}
    (hle : ∀ u v, f u v ≤ capGadget I u v) (pt : P × T)
    (h : pt ∉ meetingRequests I) : f (FNode.meet pt.1 pt.2) FNode.snk = 0 := by
  apply flow_zero_of_cap hle
  show (if (pt.1, pt.2) ∈ meetingRequests I then 1 else 0) = 0
  rw [Prod.mk.eta, if_neg h]

theorem meet_decode_facts (I : SchedInput P T R)
    {f : FNode P T R → FNode P T R → ℕ}
    (hf : IsFlow (capGadget I) (meetingRequests I).length f)
    (hnd : (meetingRequests I).Nodup) (pt : P × T)
    (hpt : pt ∈ meetingRequests I) :
    (∑ r : R, if preferredB I pt.1 r
        then f (FNode.meet pt.1 pt.2) (FNode.candA pt.1 pt.2 r) else 0)
      = (if ((decodeSlot I f pt.1 pt.2).map
          (fun r => preferredB I pt.1 r)).getD false then 1 else 0)
    ∧ f (FNode.meet pt.1 pt.2) FNode.snk
      = (if (decodeSlot I f pt.1 pt.2).isNone then 1 else 0) := by
  have hdich := meet_dichotomy I hf hnd pt hpt
  have hS : (∑ r : R, f (FNode.meet pt.1 pt.2) (FNode.candA pt.1 pt.2 r)) = 0
      ∨ (∑ r : R, f (FNode.meet pt.1 pt.2) (FNode.candA pt.1 pt.2 r)) = 1 := by
    omega
  rcases hS with hS0 | hS1
  · have hzero : ∀ r : R, f (FNode.meet pt.1 pt.2) (FNode.candA pt.1 pt.2 r) = 0 := by
      intro r
      exact (Finset.sum_eq_zero_iff.mp hS0) r (Finset.mem_univ r)
    have hdec : decodeSlot I f pt.1 pt.2 = none := by
      unfold decodeSlot
      rw [List.find?_eq_none]
      intro r hr
      simp [hzero r]
    constructor
    · rw [hdec]
      exact Finset.sum_eq_zero (fun r _ => by rw [hzero r, ite_self])
    · rw [hdec]
      simp only [Option.isNone_none, if_true]
      omega
  · obtain ⟨r0, hr0, hother⟩ := sum_nat_eq_one _ hS1
    have hr0slot : r0 ∈ I.time_slots := by
      have hcap := hf.1 (FNode.meet pt.1 pt.2) (FNode.candA pt.1 pt.2 r0)
      rw [hr0] at hcap
      by_cases hc : pt.1 = pt.1 ∧ pt.2 = pt.2
          ∧ (pt.1, pt.2) ∈ meetingRequests I ∧ r0 ∈ I.time_slots
      · exact hc.2.2.2
      · exfalso
        have hz : capGadget I (FNode.meet pt.1 pt.2) (FNode.candA pt.1 pt.2 r0) = 0 := by
          show (if pt.1 = pt.1 ∧ pt.2 = pt.2
            ∧ (pt.1, pt.2) ∈ meetingRequests I ∧ r0 ∈ I.time_slots
            then 1 else 0) = 0
          rw [if_neg hc]
        omega
    have hdec : decodeSlot I f pt.1 pt.2 = some r0 := by
      unfold decodeSlot
      apply find?_unique _ _ _ hr0slot (by simp [hr0])
      intro y hy
      by_contra hne
      rw [hother y hne] at hy
      simp at hy
    constructor
    · rw [hdec]
      rw [Fintype.sum_eq_single r0 (fun y hy => by rw [hother y hy, ite_self])]
      rw [hr0]
      rfl
    · rw [hdec]
      simp only [Option.isNone_some, Bool.false_eq_true, if_false]
      omega

theorem meet_cost_row (I : SchedInput P T R) (rwd pen : ℤ)
    {f : FNode P T R → FNode P T R → ℕ}
    (hle : ∀ u v, f u v ≤ capGadget I u v) (p : P) (t : T) :
    (∑ v, wGadget I rwd pen (FNode.meet p t) v * (f (FNode.meet p t) v : ℤ))
      = -(rwd * ((∑ r : R, if preferredB I p r
            then f (FNode.meet p t) (FNode.candA p t r) else 0 : ℕ) : ℤ))
        + pen * (f (FNode.meet p t) FNode.snk : ℤ) := by
  rw [sum_fnode (fun v =>
    wGadget I rwd pen (FNode.meet p t) v * (f (FNode.meet p t) v : ℤ))]
  have h1 : wGadget I rwd pen (FNode.meet p t) FNode.src
      * (f (FNode.meet p t) FNode.src : ℤ) = 0 := by
    rw [show wGadget I rwd pen (FNode.meet p t) FNode.src = 0 from rfl, zero_mul]
  have h3 : (∑ x : P × T, wGadget I rwd pen (FNode.meet p t) (FNode.meet x.1 x.2)
      * (f (FNode.meet p t) (FNode.meet x.1 x.2) : ℤ)) = 0 :=
    Finset.sum_eq_zero (fun x _ => by
      rw [show wGadget I rwd pen (FNode.meet p t) (FNode.meet x.1 x.2) = 0 from rfl,
        zero_mul])
  have h5 : (∑ x : P × T × R,
      wGadget I rwd pen (FNode.meet p t) (FNode.candB x.1 x.2.1 x.2.2)
      * (f (FNode.meet p t) (FNode.candB x.1 x.2.1 x.2.2) : ℤ)) = 0 :=
    Finset.sum_eq_zero (fun x _ => by
      rw [show wGadget I rwd pen (FNode.meet p t) (FNode.candB x.1 x.2.1 x.2.2) = 0
        from rfl, zero_mul])
  have h6 : (∑ x : P × R, wGadget I rwd pen (FNode.meet p t) (FNode.pIn x.1 x.2)
      * (f (FNode.meet p t) (FNode.pIn x.1 x.2) : ℤ)) = 0 :=
    Finset.sum_eq_zero (fun x _ => by
      rw [show wGadget I rwd pen (FNode.meet p t) (FNode.pIn x.1 x.2) = 0 from rfl,
        zero_mul])
  have h7 : (∑ x : P × R, wGadget I rwd pen (FNode.meet p t) (FNode.pOut x.1 x.2)
      * (f (FNode.meet p t) (FNode.pOut x.1 x.2) : ℤ)) = 0 :=
    Finset.sum_eq_zero (fun x _ => by
      rw [show wGadget I rwd pen (FNode.meet p t) (FNode.pOut x.1 x.2) = 0 from rfl,
        zero_mul])
  have h8 : (∑ x : T × R, wGadget I rwd pen (FNode.meet p t) (FNode.tIn x.1 x.2)
      * (f (FNode.meet p t) (FNode.tIn x.1 x.2) : ℤ)) = 0 :=
    Finset.sum_eq_zero (fun x _ => by
      rw [show wGadget I rwd pen (FNode.meet p t) (FNode.tIn x.1 x.2) = 0 from rfl,
        zero_mul])
  have h9 : (∑ x : T × R, wGadget I rwd pen (FNode.meet p t) (FNode.tOut x.1 x.2)
      * (f (FNode.meet p t) (FNode.tOut x.1 x.2) : ℤ)) = 0 :=
    Finset.sum_eq_zero (fun x _ => by
      rw [show wGadget I rwd pen (FNode.meet p t) (FNode.tOut x.1 x.2) = 0 from rfl,
        zero_mul])
  have hA : (∑ x : P × T × R,
      wGadget I rwd pen (FNode.meet p t) (FNode.candA x.1 x.2.1 x.2.2)
      * (f (FNode.meet p t) (FNode.candA x.1 x.2.1 x.2.2) : ℤ))
      = ∑ r : R, -(rwd * ((if preferredB I p r
          then f (FNode.meet p t) (FNode.candA p t r) else 0 : ℕ) : ℤ)) := by
    rw [Fintype.sum_prod_type]
    rw [Fintype.sum_eq_single p (fun q hq => Finset.sum_eq_zero (fun y _ => by
      have hw : wGadget I rwd pen (FNode.meet p t) (FNode.candA q y.1 y.2) = 0 := by
        show (if p = q ∧ t = y.1 ∧ (p, t) ∈ meetingRequests I ∧ y.2 ∈ I.time_slots
          then (if preferredB I p y.2 then -rwd else 0) else 0) = 0
        rw [if_neg (fun hc => hq hc.1.symm)]
      rw [hw, zero_mul]))]
    rw [Fintype.sum_prod_type]
    rw [Fintype.sum_eq_single t (fun u hu => Finset.sum_eq_zero (fun r _ => by
      have hw : wGadget I rwd pen (FNode.meet p t) (FNode.candA p u r) = 0 := by
        show (if p = p ∧ t = u ∧ (p, t) ∈ meetingRequests I ∧ r ∈ I.time_slots
          then (if preferredB I p r then -rwd else 0) else 0) = 0
        rw [if_neg (fun hc => hu hc.2.1.symm)]
      rw [hw, zero_mul]))]
    apply Finset.sum_congr rfl
    intro r _
    by_cases hg : p = p ∧ t = t ∧ (p, t) ∈ meetingRequests I ∧ r ∈ I.time_slots
    · have hw : wGadget I rwd pen (FNode.meet p t) (FNode.candA p t r)
          = (if preferredB I p r then -rwd else 0) := by
        show (if p = p ∧ t = t ∧ (p, t) ∈ meetingRequests I ∧ r ∈ I.time_slots
          then (if preferredB I p r then -rwd else 0) else 0) = _
        rw [if_pos hg]
      rw [hw]
      by_cases hp : preferredB I p r = true
      · rw [if_pos hp, if_pos hp]
        ring
      · rw [if_neg hp, if_neg hp]
        simp
    · have hw0 : wGadget I rwd pen (FNode.meet p t) (FNode.candA p t r) = 0 := by
        show (if p = p ∧ t = t ∧ (p, t) ∈ meetingRequests I ∧ r ∈ I.time_slots
          then (if preferredB I p r then -rwd else 0) else 0) = 0
        rw [if_neg hg]
      have hf0 : f (FNode.meet p t) (FNode.candA p t r) = 0 :=
        flow_zero_of_cap hle (by
          show (if p = p ∧ t = t ∧ (p, t) ∈ meetingRequests I ∧ r ∈ I.time_slots
            then 1 else 0) = 0
          rw [if_neg hg])
      rw [hw0, zero_mul, hf0]
      simp
  have hD : wGadget I rwd pen (FNode.meet p t) FNode.snk
      * (f (FNode.meet p t) FNode.snk : ℤ)
      = pen * (f (FNode.meet p t) FNode.snk : ℤ) := by
    by_cases hm : (p, t) ∈ meetingRequests I
    · rw [show wGadget I rwd pen (FNode.meet p t) FNode.snk = pen from by
        show (if (p, t) ∈ meetingRequests I then pen else 0) = pen
        rw [if_pos hm]]
    · have hf0 : f (FNode.meet p t) FNode.snk = 0 :=
        flow_zero_of_cap hle (by
          show (if (p, t) ∈ meetingRequests I then 1 else 0) = 0
          rw [if_neg hm])
      rw [hf0]
      simp
  rw [h1, h3, h5, h6, h7, h8, h9, hA, hD]
  rw [Finset.sum_neg_distrib, ← Finset.mul_sum]
  push_cast
  ring

theorem tOut_cost_row (I : SchedInput P T R) (rwd pen : ℤ)
    {f : FNode P T R → FNode P T R → ℕ}
    (hle : ∀ u v, f u v ≤ capGadget I u v) (t : T) (r : R) :
    (∑ v, wGadget I rwd pen (FNode.tOut t r) v * (f (FNode.tOut t r) v : ℤ))
      = 5 * ((∑ r2 : R, f (FNode.tOut t r) (FNode.tIn t r2) : ℕ) : ℤ) := by
  rw [sum_fnode (fun v =>
    wGadget I rwd pen (FNode.tOut t r) v * (f (FNode.tOut t r) v : ℤ))]
  have h1 : wGadget I rwd pen (FNode.tOut t r) FNode.src
      * (f (FNode.tOut t r) FNode.src : ℤ) = 0 := by
    rw [show wGadget I rwd pen (FNode.tOut t r) FNode.src = 0 from rfl, zero_mul]
  have h2 : wGadget I rwd pen (FNode.tOut t r) FNode.snk
      * (f (FNode.tOut t r) FNode.snk : ℤ) = 0 := by
    rw [show wGadget I rwd pen (FNode.tOut t r) FNode.snk = 0 from rfl, zero_mul]
  have h3 : (∑ x : P × T, wGadget I rwd pen (FNode.tOut t r) (FNode.meet x.1 x.2)
      * (f (FNode.tOut t r) (FNode.meet x.1 x.2) : ℤ)) = 0 :=
    Finset.sum_eq_zero (fun x _ => by
      rw [show wGadget I rwd pen (FNode.tOut t r) (FNode.meet x.1 x.2) = 0 from rfl,
        zero_mul])
  have h4 : (∑ x : P × T × R,
      wGadget I rwd pen (FNode.tOut t r) (FNode.candA x.1 x.2.1 x.2.2)
      * (f (FNode.tOut t r) (FNode.candA x.1 x.2.1 x.2.2) : ℤ)) = 0 :=
    Finset.sum_eq_zero (fun x _ => by
      rw [show wGadget I rwd pen (FNode.tOut t r) (FNode.candA x.1 x.2.1 x.2.2) = 0
        from rfl, zero_mul])
  have h5 : (∑ x : P × T × R,
      wGadget I rwd pen (FNode.tOut t r) (FNode.candB x.1 x.2.1 x.2.2)
      * (f (FNode.tOut t r) (FNode.candB x.1 x.2.1 x.2.2) : ℤ)) = 0 :=
    Finset.sum_eq_zero (fun x _ => by
      rw [show wGadget I rwd pen (FNode.tOut t r) (FNode.candB x.1 x.2.1 x.2.2) = 0
        from rfl, zero_mul])
  have h6 : (∑ x : P × R, wGadget I rwd pen (FNode.tOut t r) (FNode.pIn x.1 x.2)
      * (f (FNode.tOut t r) (FNode.pIn x.1 x.2) : ℤ)) = 0 :=
    Finset.sum_eq_zero (fun x _ => by
      rw [show wGadget I rwd pen (FNode.tOut t r) (FNode.pIn x.1 x.2) = 0 from rfl,
        zero_mul])
  have h7 : (∑ x : P × R, wGadget I rwd pen (FNode.tOut t r) (FNode.pOut x.1 x.2)
      * (f (FNode.tOut t r) (FNode.pOut x.1 x.2) : ℤ)) = 0 :=
    Finset.sum_eq_zero (fun x _ => by
      rw [show wGadget I rwd pen (FNode.tOut t r) (FNode.pOut x.1 x.2) = 0 from rfl,
        zero_mul])
  have h9 : (∑ x : T × R, wGadget I rwd pen (FNode.tOut t r) (FNode.tOut x.1 x.2)
      * (f (FNode.tOut t r) (FNode.tOut x.1 x.2) : ℤ)) = 0 :=
    Finset.sum_eq_zero (fun x _ => by
      rw [show wGadget I rwd pen (FNode.tOut t r) (FNode.tOut x.1 x.2) = 0 from rfl,
        zero_mul])
  have h8 : (∑ x : T × R, wGadget I rwd pen (FNode.tOut t r) (FNode.tIn x.1 x.2)
      * (f (FNode.tOut t r) (FNode.tIn x.1 x.2) : ℤ))
      = ∑ r2 : R, 5 * (f (FNode.tOut t r) (FNode.tIn t r2) : ℤ) := by
    rw [Fintype.sum_prod_type]
    rw [Fintype.sum_eq_single t (fun u hu => Finset.sum_eq_zero (fun r2 _ => by
      have hw : wGadget I rwd pen (FNode.tOut t r) (FNode.tIn u r2) = 0 := by
        show (if t = u ∧ t ∈ I.teachers ∧ r ∈ I.time_slots ∧ r2 ∈ I.time_slots
          ∧ r ≠ r2 then 5 else 0) = 0
        rw [if_neg (fun hc => hu hc.1.symm)]
      rw [hw, zero_mul]))]
    apply Finset.sum_congr rfl
    intro r2 _
    by_cases hg : t = t ∧ t ∈ I.teachers ∧ r ∈ I.time_slots ∧ r2 ∈ I.time_slots
        ∧ r ≠ r2
    · rw [show wGadget I rwd pen (FNode.tOut t r) (FNode.tIn t r2) = 5 from by
        show (if t = t ∧ t ∈ I.teachers ∧ r ∈ I.time_slots ∧ r2 ∈ I.time_slots
          ∧ r ≠ r2 then 5 else 0) = 5
        rw [if_pos hg]]
    · have hw0 : wGadget I rwd pen (FNode.tOut t r) (FNode.tIn t r2) = 0 := by
        show (if t = t ∧ t ∈ I.teachers ∧ r ∈ I.time_slots ∧ r2 ∈ I.time_slots
          ∧ r ≠ r2 then 5 else 0) = 0
        rw [if_neg hg]
      have hf0 : f (FNode.tOut t r) (FNode.tIn t r2) = 0 :=
        flow_zero_of_cap hle (by
          show (if t = t ∧ t ∈ I.teachers ∧ r ∈ I.time_slots ∧ r2 ∈ I.time_slots
            ∧ r ≠ r2 then 1 else 0) = 0
          rw [if_neg hg])
      rw [hw0, zero_mul, hf0]
      simp
  rw [h1, h2, h3, h4, h5, h6, h7, h8, h9]
  rw [← Finset.mul_sum]
  push_cast
  ring

theorem gadget_cost_decomp (I : SchedInput P T R) (rwd pen : ℤ)
    {f : FNode P T R → FNode P T R → ℕ}
    (hle : ∀ u v, f u v ≤ capGadget I u v) :
    flowCost (wGadget I rwd pen) f
      = -(rwd * (prefFlowTotal I f : ℤ)) + pen * (dropFlowTotal f : ℤ)
        + 5 * (shiftFlow f : ℤ) := by
  unfold flowCost
  rw [sum_fnode (fun u => ∑ v, wGadget I rwd pen u v * (f u v : ℤ))]
  have h1 : (∑ v, wGadget I rwd pen FNode.src v * (f FNode.src v : ℤ)) = 0 :=
    Finset.sum_eq_zero (fun v _ => by
      have hw : wGadget I rwd pen FNode.src v = 0 := by cases v <;> rfl
      rw [hw, zero_mul])
  have h2 : (∑ v, wGadget I rwd pen FNode.snk v * (f FNode.snk v : ℤ)) = 0 :=
    Finset.sum_eq_zero (fun v _ => by
      have hw : wGadget I rwd pen FNode.snk v = 0 := by cases v <;> rfl
      rw [hw, zero_mul])
  have h4 : (∑ x : P × T × R, ∑ v,
      wGadget I rwd pen (FNode.candA x.1 x.2.1 x.2.2) v
      * (f (FNode.candA x.1 x.2.1 x.2.2) v : ℤ)) = 0 :=
    Finset.sum_eq_zero (fun x _ => Finset.sum_eq_zero (fun v _ => by
      have hw : wGadget I rwd pen (FNode.candA x.1 x.2.1 x.2.2) v = 0 := by
        cases v <;> rfl
      rw [hw, zero_mul]))
  have h5 : (∑ x : P × T × R, ∑ v,
      wGadget I rwd pen (FNode.candB x.1 x.2.1 x.2.2) v
      * (f (FNode.candB x.1 x.2.1 x.2.2) v : ℤ)) = 0 :=
    Finset.sum_eq_zero (fun x _ => Finset.sum_eq_zero (fun v _ => by
      have hw : wGadget I rwd pen (FNode.candB x.1 x.2.1 x.2.2) v = 0 := by
        cases v <;> rfl
      rw [hw, zero_mul]))
  have h6 : (∑ x : P × R, ∑ v, wGadget I rwd pen (FNode.pIn x.1 x.2) v
      * (f (FNode.pIn x.1 x.2) v : ℤ)) = 0 :=
    Finset.sum_eq_zero (fun x _ => Finset.sum_eq_zero (fun v _ => by
      have hw : wGadget I rwd pen (FNode.pIn x.1 x.2) v = 0 := by cases v <;> rfl
      rw [hw, zero_mul]))
  have h7 : (∑ x : P × R, ∑ v, wGadget I rwd pen (FNode.pOut x.1 x.2) v
      * (f (FNode.pOut x.1 x.2) v : ℤ)) = 0 :=
    Finset.sum_eq_zero (fun x _ => Finset.sum_eq_zero (fun v _ => by
      have hw : wGadget I rwd pen (FNode.pOut x.1 x.2) v = 0 := by cases v <;> rfl
      rw [hw, zero_mul]))
  have h8 : (∑ x : T × R, ∑ v, wGadget I rwd pen (FNode.tIn x.1 x.2) v
      * (f (FNode.tIn x.1 x.2) v : ℤ)) = 0 :=
    Finset.sum_eq_zero (fun x _ => Finset.sum_eq_zero (fun v _ => by
      have hw : wGadget I rwd pen (FNode.tIn x.1 x.2) v = 0 := by cases v <;> rfl
      rw [hw, zero_mul]))
  have hMeet : (∑ x : P × T, ∑ v, wGadget I rwd pen (FNode.meet x.1 x.2) v
      * (f (FNode.meet x.1 x.2) v : ℤ))
      = -(rwd * (prefFlowTotal I f : ℤ)) + pen * (dropFlowTotal f : ℤ) := by
    rw [Finset.sum_congr rfl (fun x _ => meet_cost_row I rwd pen hle x.1 x.2)]
    rw [Finset.sum_add_distrib, Finset.sum_neg_distrib, ← Finset.mul_sum,
      ← Finset.mul_sum]
    unfold prefFlowTotal dropFlowTotal
    push_cast
    ring
  have hTOut : (∑ x : T × R, ∑ v, wGadget I rwd pen (FNode.tOut x.1 x.2) v
      * (f (FNode.tOut x.1 x.2) v : ℤ)) = 5 * (shiftFlow f : ℤ) := by
    rw [Finset.sum_congr rfl (fun x _ => tOut_cost_row I rwd pen hle x.1 x.2)]
    rw [← Finset.mul_sum]
    unfold shiftFlow
    rw [Fintype.sum_prod_type]
    push_cast
    ring
  rw [h1, h2, h4, h5, h6, h7, h8, hMeet, hTOut]
  ring

theorem capGadget_tIn_support (I : SchedInput P T R) (t : T) (r : R) :
    ∀ v, 0 < capGadget I (FNode.tIn t r) v → v = FNode.tOut t r := by
  intro v hv
  cases v <;> simp only [capGadget] at hv <;> try omega
  case tOut u r2 =>
  by_cases hc : t = u ∧ r = r2 ∧ teacherReq I t = true ∧ r ∈ I.time_slots
  · rw [hc.1, hc.2.1]
  · rw [if_neg hc] at hv
    omega

theorem capGadget_into_tOut (I : SchedInput P T R) (t : T) (r : R) :
    ∀ u, 0 < capGadget I u (FNode.tOut t r) → u = FNode.tIn t r := by
  intro u hv
  cases u <;> simp only [capGadget] at hv <;> try omega
  case tIn a b =>
  by_cases hc : a = t ∧ b = r ∧ teacherReq I a = true ∧ b ∈ I.time_slots
  · rw [hc.1, hc.2.1]
  · rw [if_neg hc] at hv
    omega

theorem inflow_tIn_decomp (I : SchedInput P T R)
    {f : FNode P T R → FNode P T R → ℕ}
    (hle : ∀ u v, f u v ≤ capGadget I u v) (t : T) (r : R) :
    inflow f (FNode.tIn t r) = inflowB f t r + shiftInto f t r := by
  unfold inflow
  rw [sum_fnode (fun u => f u (FNode.tIn t r))]
  have h1 : f FNode.src (FNode.tIn t r) = 0 := flow_zero_of_cap hle rfl
  have h2 : f FNode.snk (FNode.tIn t r) = 0 := flow_zero_of_cap hle rfl
  have h3 : (∑ x : P × T, f (FNode.meet x.1 x.2) (FNode.tIn t r)) = 0 :=
    Finset.sum_eq_zero (fun x _ => flow_zero_of_cap hle rfl)
  have h4 : (∑ x : P × T × R, f (FNode.candA x.1 x.2.1 x.2.2) (FNode.tIn t r)) = 0 :=
    Finset.sum_eq_zero (fun x _ => flow_zero_of_cap hle rfl)
  have h6 : (∑ x : P × R, f (FNode.pIn x.1 x.2) (FNode.tIn t r)) = 0 :=
    Finset.sum_eq_zero (fun x _ => flow_zero_of_cap hle rfl)
  have h7 : (∑ x : P × R, f (FNode.pOut x.1 x.2) (FNode.tIn t r)) = 0 :=
    Finset.sum_eq_zero (fun x _ => flow_zero_of_cap hle rfl)
  have h8 : (∑ x : T × R, f (FNode.tIn x.1 x.2) (FNode.tIn t r)) = 0 :=
    Finset.sum_eq_zero (fun x _ => flow_zero_of_cap hle rfl)
  have h5 : (∑ x : P × T × R, f (FNode.candB x.1 x.2.1 x.2.2) (FNode.tIn t r))
      = inflowB f t r := by
    rw [Fintype.sum_prod_type]
    unfold inflowB
    apply Finset.sum_congr rfl
    intro p _
    rw [Fintype.sum_prod_type]
    rw [Fintype.sum_eq_single t (fun u hu => Finset.sum_eq_zero (fun b _ =>
      flow_zero_of_cap hle (by
        show (if u = t ∧ b = r ∧ (p, u) ∈ meetingRequests I ∧ b ∈ I.time_slots
          then 1 else 0) = 0
        rw [if_neg (fun hc => hu hc.1)])))]
    rw [Fintype.sum_eq_single r (fun b hb =>
      flow_zero_of_cap hle (by
        show (if t = t ∧ b = r ∧ (p, t) ∈ meetingRequests I ∧ b ∈ I.time_slots
          then 1 else 0) = 0
        rw [if_neg (fun hc => hb hc.2.1)]))]
  have h9 : (∑ x : T × R, f (FNode.tOut x.1 x.2) (FNode.tIn t r))
      = shiftInto f t r := rfl
  rw [h1, h2, h3, h4, h5, h6, h7, h8, h9]
  omega

theorem outflow_tIn (I : SchedInput P T R)
    {f : FNode P T R → FNode P T R → ℕ}
    (hle : ∀ u v, f u v ≤ capGadget I u v) (t : T) (r : R) :
    outflow f (FNode.tIn t r) = f (FNode.tIn t r) (FNode.tOut t r) :=
  outflow_single hle (capGadget_tIn_support I t r)

theorem inflow_tOut (I : SchedInput P T R)
    {f : FNode P T R → FNode P T R → ℕ}
    (hle : ∀ u v, f u v ≤ capGadget I u v) (t : T) (r : R) :
    inflow f (FNode.tOut t r) = f (FNode.tIn t r) (FNode.tOut t r) :=
  inflow_single hle (capGadget_into_tOut I t r)

theorem outflow_tOut_decomp (I : SchedInput P T R)
    {f : FNode P T R → FNode P T R → ℕ}
    (hle : ∀ u v, f u v ≤ capGadget I u v) (t : T) (r : R) :
    outflow f (FNode.tOut t r)
      = f (FNode.tOut t r) FNode.snk
        + ∑ r2 : R, f (FNode.tOut t r) (FNode.tIn t r2) := by
  unfold outflow
  rw [sum_fnode (fun v => f (FNode.tOut t r) v)]
  have h1 : f (FNode.tOut t r) FNode.src = 0 := flow_zero_of_cap hle rfl
  have h3 : (∑ x : P × T, f (FNode.tOut t r) (FNode.meet x.1 x.2)) = 0 :=
    Finset.sum_eq_zero (fun x _ => flow_zero_of_cap hle rfl)
  have h4 : (∑ x : P × T × R, f (FNode.tOut t r) (FNode.candA x.1 x.2.1 x.2.2)) = 0 :=
    Finset.sum_eq_zero (fun x _ => flow_zero_of_cap hle rfl)
  have h5 : (∑ x : P × T × R, f (FNode.tOut t r) (FNode.candB x.1 x.2.1 x.2.2)) = 0 :=
    Finset.sum_eq_zero (fun x _ => flow_zero_of_cap hle rfl)
  have h6 : (∑ x : P × R, f (FNode.tOut t r) (FNode.pIn x.1 x.2)) = 0 :=
    Finset.sum_eq_zero (fun x _ => flow_zero_of_cap hle rfl)
  have h7 : (∑ x : P × R, f (FNode.tOut t r) (FNode.pOut x.1 x.2)) = 0 :=
    Finset.sum_eq_zero (fun x _ => flow_zero_of_cap hle rfl)
  have h9 : (∑ x : T × R, f (FNode.tOut t r) (FNode.tOut x.1 x.2)) = 0 :=
    Finset.sum_eq_zero (fun x _ => flow_zero_of_cap hle rfl)
  have h8 : (∑ x : T × R, f (FNode.tOut t r) (FNode.tIn x.1 x.2))
      = ∑ r2 : R, f (FNode.tOut t r) (FNode.tIn t r2) := by
    rw [Fintype.sum_prod_type]
    rw [Fintype.sum_eq_single t (fun u hu => Finset.sum_eq_zero (fun r2 _ =>
      flow_zero_of_cap hle (by
        show (if t = u ∧ t ∈ I.teachers ∧ r ∈ I.time_slots ∧ r2 ∈ I.time_slots
          ∧ r ≠ r2 then 1 else 0) = 0
        rw [if_neg (fun hc => hu hc.1.symm)])))]
  rw [h1, h3, h4, h5, h6, h7, h8, h9]
  omega

theorem inflowB_le_diag (I : SchedInput P T R)
    {f : FNode P T R → FNode P T R → ℕ} {Rtot : ℕ}
    (hf : IsFlow (capGadget I) Rtot f) (t : T) (r : R) :
    inflowB f t r ≤ f (FNode.tIn t r) (FNode.tOut t r) := by
  have hcons := hf.2.1 (FNode.tIn t r)
    (fun h => FNode.noConfusion h) (fun h => FNode.noConfusion h)
  rw [inflow_tIn_decomp I hf.1 t r, outflow_tIn I hf.1 t r] at hcons
  omega

theorem inflowB_zero_of_no_sink (I : SchedInput P T R)
    {f : FNode P T R → FNode P T R → ℕ} {Rtot : ℕ}
    (hf : IsFlow (capGadget I) Rtot f) (t : T) (r : R)
    (hc : ¬(t ∈ I.teachers ∧ r ∈ I.time_slots)) : inflowB f t r = 0 := by
  have h1 : f (FNode.tOut t r) FNode.snk = 0 := flow_zero_of_cap hf.1 (by
    show (if t ∈ I.teachers ∧ r ∈ I.time_slots then 1 else 0) = 0
    rw [if_neg hc])
  have h2 : ∀ r2 : R, f (FNode.tOut t r) (FNode.tIn t r2) = 0 := fun r2 =>
    flow_zero_of_cap hf.1 (by
      show (if t = t ∧ t ∈ I.teachers ∧ r ∈ I.time_slots ∧ r2 ∈ I.time_slots
        ∧ r ≠ r2 then 1 else 0) = 0
      rw [if_neg (fun hg => hc ⟨hg.2.1, hg.2.2.1⟩)])
  have hout : outflow f (FNode.tOut t r) = 0 := by
    rw [outflow_tOut_decomp I hf.1 t r, h1,
      Finset.sum_eq_zero (fun r2 _ => h2 r2)]
    omega
  have hcons := hf.2.1 (FNode.tOut t r)
    (fun h => FNode.noConfusion h) (fun h => FNode.noConfusion h)
  rw [inflow_tOut I hf.1 t r, hout] at hcons
  have hd := inflowB_le_diag I hf t r
  omega

theorem inflowB_le_one (I : SchedInput P T R)
    {f : FNode P T R → FNode P T R → ℕ} {Rtot : ℕ}
    (hf : IsFlow (capGadget I) Rtot f) (t : T) (r : R) : inflowB f t r ≤ 1 := by
  have h := inflowB_le_diag I hf t r
  have hcap := hf.1 (FNode.tIn t r) (FNode.tOut t r)
  have hc1 : capGadget I (FNode.tIn t r) (FNode.tOut t r) ≤ 1 := by
    show (if t = t ∧ r = r ∧ teacherReq I t = true ∧ r ∈ I.time_slots
      then 1 else 0) ≤ 1
    split <;> omega
  omega

theorem deShift_le_cap (I : SchedInput P T R)
    {f : FNode P T R → FNode P T R → ℕ} {Rtot : ℕ}
    (hf : IsFlow (capGadget I) Rtot f) :
    ∀ u v, deShift f u v ≤ capGadget I u v := by
  intro u v
  cases u <;> cases v <;> try exact hf.1 _ _
  case tIn.tOut a b c d =>
    show (if a = c ∧ b = d then inflowB f a b
      else f (FNode.tIn a b) (FNode.tOut c d)) ≤ _
    by_cases hd : a = c ∧ b = d
    · rw [if_pos hd]
      obtain ⟨h1, h2⟩ := hd
      subst h1
      subst h2
      exact le_trans (inflowB_le_diag I hf a b) (hf.1 _ _)
    · rw [if_neg hd]
      exact hf.1 _ _
  case tOut.snk a b =>
    show inflowB f a b ≤ capGadget I (FNode.tOut a b) FNode.snk
    show inflowB f a b ≤ (if a ∈ I.teachers ∧ b ∈ I.time_slots then 1 else 0)
    by_cases hc : a ∈ I.teachers ∧ b ∈ I.time_slots
    · rw [if_pos hc]
      exact inflowB_le_one I hf a b
    · rw [if_neg hc, inflowB_zero_of_no_sink I hf a b hc]
  case tOut.tIn a b c d =>
    exact Nat.zero_le _

theorem shiftInto_eq_same_teacher (I : SchedInput P T R)
    {f : FNode P T R → FNode P T R → ℕ}
    (hle : ∀ u v, f u v ≤ capGadget I u v) (t : T) (r : R) :
    shiftInto f t r = ∑ r1 : R, f (FNode.tOut t r1) (FNode.tIn t r) := by
  unfold shiftInto
  rw [Fintype.sum_prod_type]
  rw [Fintype.sum_eq_single t (fun u hu => Finset.sum_eq_zero (fun r1 _ =>
    flow_zero_of_cap hle (by
      show (if u = t ∧ u ∈ I.teachers ∧ r1 ∈ I.time_slots ∧ r ∈ I.time_slots
        ∧ r1 ≠ r then 1 else 0) = 0
      rw [if_neg (fun hc => hu hc.1)])))]

theorem inflowB_sum_eq_sink_sum (I : SchedInput P T R)
    {f : FNode P T R → FNode P T R → ℕ} {Rtot : ℕ}
    (hf : IsFlow (capGadget I) Rtot f) :
    (∑ x : T × R, inflowB f x.1 x.2)
      = ∑ x : T × R, f (FNode.tOut x.1 x.2) FNode.snk := by
  rw [Fintype.sum_prod_type, Fintype.sum_prod_type]
  apply Finset.sum_congr rfl
  intro t _
  dsimp only
  have hE1 : ∀ r : R, inflowB f t r + shiftInto f t r
      = f (FNode.tIn t r) (FNode.tOut t r) := by
    intro r
    have hcons := hf.2.1 (FNode.tIn t r)
      (fun h => FNode.noConfusion h) (fun h => FNode.noConfusion h)
    rw [inflow_tIn_decomp I hf.1 t r, outflow_tIn I hf.1 t r] at hcons
    exact hcons
  have hE2 : ∀ r : R, f (FNode.tIn t r) (FNode.tOut t r)
      = f (FNode.tOut t r) FNode.snk
        + ∑ r2 : R, f (FNode.tOut t r) (FNode.tIn t r2) := by
    intro r
    have hcons := hf.2.1 (FNode.tOut t r)
      (fun h => FNode.noConfusion h) (fun h => FNode.noConfusion h)
    rw [inflow_tOut I hf.1 t r, outflow_tOut_decomp I hf.1 t r] at hcons
    exact hcons
  have hsum1 : (∑ r : R, inflowB f t r)
      + (∑ r : R, ∑ r1 : R, f (FNode.tOut t r1) (FNode.tIn t r))
      = ∑ r : R, f (FNode.tIn t r) (FNode.tOut t r) := by
    rw [← Finset.sum_add_distrib]
    apply Finset.sum_congr rfl
    intro r _
    rw [← shiftInto_eq_same_teacher I hf.1 t r]
    exact hE1 r
  have hsum2 : (∑ r : R, f (FNode.tIn t r) (FNode.tOut t r))
      = (∑ r : R, f (FNode.tOut t r) FNode.snk)
        + ∑ r : R, ∑ r2 : R, f (FNode.tOut t r) (FNode.tIn t r2) := by
    rw [← Finset.sum_add_distrib]
    exact Finset.sum_congr rfl (fun r _ => hE2 r)
  have hcomm : (∑ r : R, ∑ r1 : R, f (FNode.tOut t r1) (FNode.tIn t r))
      = ∑ r : R, ∑ r2 : R, f (FNode.tOut t r) (FNode.tIn t r2) :=
    Finset.sum_comm
  omega

theorem deShift_flow (I : SchedInput P T R)
    {f : FNode P T R → FNode P T R → ℕ} {Rtot : ℕ}
    (hf : IsFlow (capGadget I) Rtot f) :
    IsFlow (capGadget I) Rtot (deShift f) := by
  refine ⟨deShift_le_cap I hf, ?_, ?_, ?_⟩
  · intro v hv1 hv2
    cases v with
    | src => exact absurd rfl hv1
    | snk => exact absurd rfl hv2
    | meet p t =>
      have hin : inflow (deShift f) (FNode.meet p t) = inflow f (FNode.meet p t) :=
        Finset.sum_congr rfl (fun u _ => by cases u <;> rfl)
      have hout : outflow (deShift f) (FNode.meet p t) = outflow f (FNode.meet p t) :=
        Finset.sum_congr rfl (fun w _ => by cases w <;> rfl)
      rw [hin, hout]
      exact hf.2.1 _ hv1 hv2
    | candA p t r =>
      have hin : inflow (deShift f) (FNode.candA p t r) = inflow f (FNode.candA p t r) :=
        Finset.sum_congr rfl (fun u _ => by cases u <;> rfl)
      have hout : outflow (deShift f) (FNode.candA p t r) = outflow f (FNode.candA p t r) :=
        Finset.sum_congr rfl (fun w _ => by cases w <;> rfl)
      rw [hin, hout]
      exact hf.2.1 _ hv1 hv2
    | candB p t r =>
      have hin : inflow (deShift f) (FNode.candB p t r) = inflow f (FNode.candB p t r) :=
        Finset.sum_congr rfl (fun u _ => by cases u <;> rfl)
      have hout : outflow (deShift f) (FNode.candB p t r) = outflow f (FNode.candB p t r) :=
        Finset.sum_congr rfl (fun w _ => by cases w <;> rfl)
      rw [hin, hout]
      exact hf.2.1 _ hv1 hv2
    | pIn p r =>
      have hin : inflow (deShift f) (FNode.pIn p r) = inflow f (FNode.pIn p r) :=
        Finset.sum_congr rfl (fun u _ => by cases u <;> rfl)
      have hout : outflow (deShift f) (FNode.pIn p r) = outflow f (FNode.pIn p r) :=
        Finset.sum_congr rfl (fun w _ => by cases w <;> rfl)
      rw [hin, hout]
      exact hf.2.1 _ hv1 hv2
    | pOut p r =>
      have hin : inflow (deShift f) (FNode.pOut p r) = inflow f (FNode.pOut p r) :=
        Finset.sum_congr rfl (fun u _ => by cases u <;> rfl)
      have hout : outflow (deShift f) (FNode.pOut p r) = outflow f (FNode.pOut p r) :=
        Finset.sum_congr rfl (fun w _ => by cases w <;> rfl)
      rw [hin, hout]
      exact hf.2.1 _ hv1 hv2
    | tIn t r =>
      have hin : inflow (deShift f) (FNode.tIn t r) = inflowB f t r := by
        rw [inflow_tIn_decomp I (deShift_le_cap I hf) t r]
        have hB : inflowB (deShift f) t r = inflowB f t r :=
          Finset.sum_congr rfl (fun p _ => rfl)
        have hS : shiftInto (deShift f) t r = 0 :=
          Finset.sum_eq_zero (fun y _ => rfl)
        rw [hB, hS]
        omega
      have hout : outflow (deShift f) (FNode.tIn t r) = inflowB f t r := by
        rw [outflow_tIn I (deShift_le_cap I hf) t r]
        show (if t = t ∧ r = r then inflowB f t r
          else f (FNode.tIn t r) (FNode.tOut t r)) = inflowB f t r
        rw [if_pos ⟨rfl, rfl⟩]
      rw [hin, hout]
    | tOut t r =>
      have hin : inflow (deShift f) (FNode.tOut t r) = inflowB f t r := by
        rw [inflow_tOut I (deShift_le_cap I hf) t r]
        show (if t = t ∧ r = r then inflowB f t r
          else f (FNode.tIn t r) (FNode.tOut t r)) = inflowB f t r
        rw [if_pos ⟨rfl, rfl⟩]
      have hout : outflow (deShift f) (FNode.tOut t r) = inflowB f t r := by
        rw [outflow_tOut_decomp I (deShift_le_cap I hf) t r]
        have h1 : deShift f (FNode.tOut t r) FNode.snk = inflowB f t r := rfl
        have h2 : (∑ r2 : R, deShift f (FNode.tOut t r) (FNode.tIn t r2)) = 0 :=
          Finset.sum_eq_zero (fun r2 _ => rfl)
        rw [h1, h2]
        omega
      rw [hin, hout]
  · have hout : outflow (deShift f) FNode.src = outflow f FNode.src :=
      Finset.sum_congr rfl (fun w _ => by cases w <;> rfl)
    have hin : inflow (deShift f) FNode.src = inflow f FNode.src :=
      Finset.sum_congr rfl (fun u _ => by cases u <;> rfl)
    rw [hout, hin]
    exact hf.2.2.1
  · have hout : outflow (deShift f) FNode.snk = outflow f FNode.snk :=
      Finset.sum_congr rfl (fun w _ => by cases w <;> rfl)
    have hin : inflow (deShift f) FNode.snk = inflow f FNode.snk := by
      unfold inflow
      rw [sum_fnode (fun u => deShift f u FNode.snk),
        sum_fnode (fun u => f u FNode.snk)]
      have htOut : (∑ x : T × R, deShift f (FNode.tOut x.1 x.2) FNode.snk)
          = ∑ x : T × R, f (FNode.tOut x.1 x.2) FNode.snk := by
        rw [show (∑ x : T × R, deShift f (FNode.tOut x.1 x.2) FNode.snk)
          = ∑ x : T × R, inflowB f x.1 x.2
          from Finset.sum_congr rfl (fun x _ => rfl)]
        exact inflowB_sum_eq_sink_sum I hf
      rw [htOut]
      rfl
    rw [hout, hin]
    exact hf.2.2.2

theorem prefFlowTotal_deShift (I : SchedInput P T R)
    (f : FNode P T R → FNode P T R → ℕ) :
    prefFlowTotal I (deShift f) = prefFlowTotal I f :=
  Finset.sum_congr rfl (fun x _ => Finset.sum_congr rfl (fun r _ => rfl))

theorem dropFlowTotal_deShift (f : FNode P T R → FNode P T R → ℕ) :
    dropFlowTotal (deShift f) = dropFlowTotal f :=
  Finset.sum_congr rfl (fun x _ => rfl)

theorem shiftFlow_deShift (f : FNode P T R → FNode P T R → ℕ) :
    shiftFlow (deShift f) = 0 :=
  Finset.sum_eq_zero (fun t _ => Finset.sum_eq_zero (fun r _ =>
    Finset.sum_eq_zero (fun r2 _ => rfl)))

theorem optimal_no_shift (I : SchedInput P T R) (rwd pen : ℤ) (Rtot : ℕ)
    {f : FNode P T R → FNode P T R → ℕ}
    (hopt : IsMinCostFlow (capGadget I) (wGadget I rwd pen) Rtot f) :
    shiftFlow f = 0 := by
  have hf := hopt.1
  have hd := hopt.2 (deShift f) (deShift_flow I hf)
  rw [gadget_cost_decomp I rwd pen hf.1,
    gadget_cost_decomp I rwd pen (deShift_le_cap I hf),
    prefFlowTotal_deShift I f, dropFlowTotal_deShift f, shiftFlow_deShift f] at hd
  have h5 : (5 : ℤ) * (shiftFlow f : ℤ) ≤ 0 := by
    push_cast at hd
    linarith
  omega

theorem countP_filterMap_decode (I : SchedInput P T R)
    (f : FNode P T R → FNode P T R → ℕ) :
    ∀ l : List (P × T),
      (l.filterMap (fun pt => (decodeSlot I f pt.1 pt.2).map (fun r => (pt, r)))).countP
        (fun e => preferredB I e.1.1 e.2)
      = l.countP (fun pt => ((decodeSlot I f pt.1 pt.2).map
          (fun r => preferredB I pt.1 r)).getD false) := by
  intro l
  induction l with
  | nil => rfl
  | cons pt l ih =>
    rw [List.filterMap_cons]
    cases hd : decodeSlot I f pt.1 pt.2 with
    | none => simp [hd, List.countP_cons, ih]
    | some r => simp [hd, List.countP_cons, ih]

theorem numPreferred_eq_countP (I : SchedInput P T R)
    (f : FNode P T R → FNode P T R → ℕ) :
    numPreferred I f = (meetingRequests I).countP
      (fun pt => ((decodeSlot I f pt.1 pt.2).map
        (fun r => preferredB I pt.1 r)).getD false) := by
  unfold numPreferred decodeSchedule
  exact countP_filterMap_decode I f (meetingRequests I)

theorem numDrops_eq_countP (I : SchedInput P T R)
    (f : FNode P T R → FNode P T R → ℕ) :
    numDrops I f = (meetingRequests I).countP
      (fun pt => (decodeSlot I f pt.1 pt.2).isNone) := by
  unfold numDrops unscheduledOf
  exact (List.countP_eq_length_filter _ _).symm

theorem list_ite_sum_eq_countP {α : Type} (l : List α) (p : α → Bool) :
    (l.map (fun x => if p x then 1 else 0)).sum = l.countP p := by
  induction l with
  | nil => rfl
  | cons a l ih =>
    rw [List.map_cons, List.sum_cons, List.countP_cons, ih]
    omega

theorem sum_univ_eq_countP {α : Type} [Fintype α] [DecidableEq α]
    (l : List α) (hnd : l.Nodup) (g : α → ℕ) (p : α → Bool)
    (h0 : ∀ x, x ∉ l → g x = 0) (h1 : ∀ x ∈ l, g x = if p x then 1 else 0) :
    (∑ x : α, g x) = l.countP p := by
  have hs : ∑ x ∈ l.toFinset, g x = ∑ x : α, g x :=
    Finset.sum_subset (Finset.subset_univ _)
      (fun x _ hx => h0 x (fun hm => hx (List.mem_toFinset.mpr hm)))
  rw [← hs]
  rw [Finset.sum_congr rfl (fun x hx => h1 x (List.mem_toFinset.mp hx))]
  rw [List.sum_toFinset _ hnd]
  exact list_ite_sum_eq_countP l p

theorem prefFlowTotal_eq (I : SchedInput P T R)
    {f : FNode P T R → FNode P T R → ℕ}
    (hf : IsFlow (capGadget I) (meetingRequests I).length f)
    (hnd : (meetingRequests I).Nodup) :
    prefFlowTotal I f = numPreferred I f := by
  unfold prefFlowTotal
  rw [numPreferred_eq_countP]
  apply sum_univ_eq_countP (meetingRequests I) hnd
  · intro x hx
    exact Finset.sum_eq_zero (fun r _ => by
      rw [f_meet_candA_zero I hf.1 x.1 x.2 (by rw [Prod.mk.eta]; exact hx) r,
        ite_self])
  · intro x hx
    exact (meet_decode_facts I hf hnd x hx).1

theorem dropFlowTotal_eq (I : SchedInput P T R)
    {f : FNode P T R → FNode P T R → ℕ}
    (hf : IsFlow (capGadget I) (meetingRequests I).length f)
    (hnd : (meetingRequests I).Nodup) :
    dropFlowTotal f = numDrops I f := by
  unfold dropFlowTotal
  rw [numDrops_eq_countP]
  apply sum_univ_eq_countP (meetingRequests I) hnd
  · intro x hx
    exact f_meet_snk_zero I hf.1 x hx
  · intro x hx
    exact (meet_decode_facts I hf hnd x hx).2

theorem flowCost_nonneg (w : FNode P T R → FNode P T R → ℤ)
    (f : FNode P T R → FNode P T R → ℕ) (hw : ∀ u v, 0 ≤ w u v) :
    0 ≤ flowCost w f :=
  Finset.sum_nonneg (fun u _ => Finset.sum_nonneg (fun v _ =>
    mul_nonneg (hw u v) (Int.natCast_nonneg _)))

end C5Dev

/-- C5: for every solved instance of the gadget-form scheduler — any
cost-minimal feasible flow on the network built from duplicate-free meeting
requests — the reported total_reward, the negated minimum flow cost, equals
preferred_reward times the number of requests decoded to a preferred slot
minus drop_penalty times the number of dropped requests; no other edge
contributes cost, because a cost-minimal flow carries no shift-edge
traffic. -/
theorem C5_reward_accounting {P T R : Type} [DecidableEq P] [DecidableEq T]
    [DecidableEq R] [Fintype P] [Fintype T] [Fintype R]
    (I : SchedInput P T R) (rwd pen : ℤ)
    (f : FNode P T R → FNode P T R → ℕ)
    (hnd : (meetingRequests I).Nodup)
    (hopt : IsMinCostFlow (capGadget I) (wGadget I rwd pen)
      (meetingRequests I).length f) :
    -(flowCost (wGadget I rwd pen) f)
      = rwd * (numPreferred I f : ℤ) - pen * (numDrops I f : ℤ) := by
  have hf := hopt.1
  rw [gadget_cost_decomp I rwd pen hf.1]
  rw [optimal_no_shift I rwd pen (meetingRequests I).length hopt]
  rw [prefFlowTotal_eq I hf hnd, dropFlowTotal_eq I hf hnd]
  push_cast
  ring

set_option maxHeartbeats 2000000 in
theorem f5_isFlow : IsFlow (capGadget I5) (meetingRequests I5).length f5 := by
  unfold IsFlow inflow outflow
  decide

theorem wGadget_I5_nonneg : ∀ u v, 0 ≤ wGadget I5 10 1000 u v := by decide

set_option maxHeartbeats 1000000 in
theorem f5_cost_zero : flowCost (wGadget I5 10 1000) f5 = 0 := by
  unfold flowCost
  decide

theorem C5_witness :
    (meetingRequests I5).Nodup ∧
    -(flowCost (wGadget I5 10 1000) f5)
      = 10 * (numPreferred I5 f5 : ℤ) - 1000 * (numDrops I5 f5 : ℤ) :=
  ⟨by decide, C5_reward_accounting I5 10 1000 f5 (by decide)
    ⟨f5_isFlow, fun g hg => by
      rw [f5_cost_zero]
      exact flowCost_nonneg (wGadget I5 10 1000) g wGadget_I5_nonneg⟩⟩
